import Mathlib

set_option maxHeartbeats 1000000
set_option maxRecDepth 4000

/-!
Shallow embedding of the Poker-Server game engine.

Sources embedded: src/app/models/cards.py, src/app/models/player.py,
src/app/models/game.py, src/app/engine/hand_evaluator.py,
src/app/engine/rules.py, src/app/engine/game_engine.py.

Modelling conventions:
* Python ints are `Int`; Python `//` and `%` (positive divisor) are
  `Int.ediv` / `Int.emod`, which agree with Python floor semantics for
  positive divisors.
* The `players` dict and the seat-ordered `player_order` list of
  `GameState` are merged into a single list `players` kept in seat
  order; dict lookup by id becomes `List.find?` on the `player_id`
  field.  Real states have pairwise-distinct ids (dict keys), which
  theorems assume as a `Nodup` hypothesis where it matters.
* Places where Python raises (indexing an empty pot list, dealing from
  an exhausted deck, evaluating fewer than five cards) are modelled
  with no-op / default results; theorems carry hypotheses that keep
  them out of those crash states.
* The deck lives on the engine, not in `GameState`; engine functions
  thread it explicitly.  Shuffling is nondeterministic, so freshly
  shuffled decks are universally quantified parameters.
* Wall-clock timestamps and uuid strings of the action history are
  omitted from the history records.
-/

/-- models/cards.py `Suit`. -/
inductive Suit
  | c | d | h | s
  deriving DecidableEq, Repr

/-- models/cards.py `Card`; `Rank` is an IntEnum, kept as `Int`. -/
structure Card where
  rank : Int
  suit : Suit
  deriving DecidableEq, Repr

/-- models/player.py `PlayerStatus`. -/
inductive PlayerStatus
  | waiting | active | folded | all_in | eliminated | disconnected
  deriving DecidableEq, Repr, Inhabited

/-- models/player.py `Player`. -/
structure Player where
  player_id : String
  username : String
  chips : Int
  hole_cards : List Card
  current_bet : Int
  total_bet : Int
  status : PlayerStatus
  seat_position : Int
  is_dealer : Bool
  is_small_blind : Bool
  is_big_blind : Bool
  has_acted : Bool
  last_action : Option String
  deriving DecidableEq, Repr, Inhabited

/-- models/game.py `BettingRound`. -/
inductive BettingRound
  | preflop | flop | turn | river | showdown
  deriving DecidableEq, Repr

/-- models/game.py `GamePhase`. -/
inductive GamePhase
  | waiting | dealing | betting | showdown | hand_complete
  deriving DecidableEq, Repr

/-- models/game.py `ActionType`. -/
inductive ActionType
  | fold | check | call | bet | raise | all_in
  deriving DecidableEq, Repr

/-- models/game.py `PlayerAction`. -/
structure PlayerAction where
  action_type : ActionType
  amount : Option Int
  deriving DecidableEq, Repr

/-- models/game.py `ValidatedAction`. -/
structure ValidatedAction where
  player_id : String
  action_type : ActionType
  amount : Int
  is_valid : Bool
  error_message : Option String
  deriving DecidableEq, Repr

/-- models/game.py `PotInfo`. -/
structure PotInfo where
  amount : Int
  eligible_players : List String
  deriving DecidableEq, Repr

/-- One entry of `GameState.action_history` (timestamps omitted). -/
structure ActionRec where
  player_id : String
  username : String
  action : String
  amount : Int
  round : BettingRound
  deriving DecidableEq, Repr

/-- One entry of `GameState.hand_winners`. -/
structure WinRec where
  player_id : String
  username : String
  amount : Int
  hand : String
  deriving DecidableEq, Repr

/-- models/game.py `GameState` (players dict and player_order merged,
see the module comment; game_id/table_id strings omitted). -/
structure GameState where
  hand_number : Int
  phase : GamePhase
  betting_round : BettingRound
  players : List Player
  community_cards : List Card
  pots : List PotInfo
  current_player_id : Option String
  dealer_position : Nat
  small_blind : Int
  big_blind : Int
  current_bet : Int
  min_raise : Int
  last_raiser_id : Option String
  action_history : List ActionRec
  hand_winners : List WinRec
  deriving DecidableEq, Repr

/-- models/game.py `GameState.get_active_players`: players still in the
hand (ACTIVE or ALL_IN), in seat order. -/
def GameState.get_active_players (gs : GameState) : List Player :=
  gs.players.filter (fun p => p.status == .active || p.status == .all_in)

/-- models/game.py `GameState.get_players_to_act`: players who can still
act (status ACTIVE), in seat order. -/
def GameState.get_players_to_act (gs : GameState) : List Player :=
  gs.players.filter (fun p => p.status == .active)

/-- models/game.py `GameState.get_total_pot`. -/
def GameState.get_total_pot (gs : GameState) : Int :=
  (gs.pots.map (·.amount)).sum

/-- Dict lookup `game_state.players.get(player_id)` on the merged list. -/
def findPlayer (gs : GameState) (pid : String) : Option Player :=
  gs.players.find? (fun p => p.player_id == pid)

/-- Mutation of the player object stored under `pid`
(`game_state.players[pid].field = ...`). -/
def updatePlayer (gs : GameState) (pid : String) (f : Player → Player) :
    GameState :=
  { gs with players := gs.players.map (fun p => if p.player_id = pid then f p else p) }

/-- `pots[0].amount += a`; Python raises IndexError on an empty pot
list, modelled as a no-op. -/
def addToPot0 : List PotInfo → Int → List PotInfo
  | [], _ => []
  | p :: rest, a => { p with amount := p.amount + a } :: rest

/-- First-occurrence de-duplication: iteration order of a Python
`Counter` / membership order of `set` insertion. -/
def uniqueKeys {α : Type} [DecidableEq α] (l : List α) : List α :=
  l.foldl (fun acc r => if r ∈ acc then acc else acc ++ [r]) []

/-- Stable insertion step of a descending sort: `x` goes after every
earlier element `y` with `ge y x`. -/
def insertDescBy {α : Type} (ge : α → α → Bool) (x : α) : List α → List α
  | [] => [x]
  | y :: ys => if ge y x then y :: insertDescBy ge x ys else x :: y :: ys

/-- Stable descending sort (CPython `list.sort(key=..., reverse=True)`
is stable and descending). -/
def sortDescBy {α : Type} (ge : α → α → Bool) (l : List α) : List α :=
  l.foldl (fun acc x => insertDescBy ge x acc) []

/-- `sorted(ranks, reverse=True)` on ints. -/
def sortDescInt (l : List Int) : List Int :=
  sortDescBy (fun a b => decide (b ≤ a)) l

/-- Python comparison of two ints as an `Ordering`. -/
def cmpInt (a b : Int) : Ordering :=
  if a < b then .lt else if b < a then .gt else .eq

/-- Python list comparison on `List int`: lexicographic, a strict
prefix is smaller. -/
def cmpIntList : List Int → List Int → Ordering
  | [], [] => .eq
  | [], _ :: _ => .lt
  | _ :: _, [] => .gt
  | a :: as, b :: bs =>
    match cmpInt a b with
    | .eq => cmpIntList as bs
    | o => o

/-- Python tuple comparison of `(category, tiebreakers)` keys. -/
def cmpKey (a b : Int × List Int) : Ordering :=
  match cmpInt a.1 b.1 with
  | .eq => cmpIntList a.2 b.2
  | o => o

/-- `(rank, tiebreakers) > (best_rank, best_tiebreakers)` in Python. -/
def keyGt (a b : Int × List Int) : Bool := cmpKey a b == .gt

/-- `a ≥ b` on evaluation keys. -/
def keyGe (a b : Int × List Int) : Bool := !(cmpKey a b == .lt)

/-- `itertools.combinations(l, n)` in itertools order. -/
def combos {α : Type} : List α → Nat → List (List α)
  | _, 0 => [[]]
  | [], _ + 1 => []
  | x :: xs, n + 1 => ((combos xs n).map (x :: ·)) ++ combos xs (n + 1)

/-- Ranks of `rank_counts` entries with multiplicity `c`
(`[r for r, cnt in rank_counts.items() if cnt == c]`). -/
def ranksWithCount (rc : List (Int × Nat)) (c : Nat) : List Int :=
  (rc.filter (fun x => x.2 == c)).map (·.1)

/-- `[...][0]` on the previous selection; every use site in
`evaluate_hand` has a nonempty selection. -/
def firstWithCount (rc : List (Int × Nat)) (c : Nat) : Int :=
  (ranksWithCount rc c).headD 0

/-- `Counter(ranks)` as an association list in first-encounter order. -/
def counts (ranks : List Int) : List (Int × Nat) :=
  (uniqueKeys ranks).map (fun r => (r, ranks.count r))

/-- engine/hand_evaluator.py `HandEvaluator._check_straight`. -/
def check_straight (ranks : List Int) : Bool × Int :=
  let u := sortDescInt (uniqueKeys ranks)
  if u.length ≠ 5 then (false, 0)
  else if u.headD 0 - u.getD 4 0 = 4 then (true, u.headD 0)
  else if u = [14, 5, 4, 3, 2] then (true, 5)
  else (false, 0)

/-- engine/hand_evaluator.py `HandEvaluator.evaluate_hand`; the
ValueError on a non-5-card input is modelled as `(0, [], "")`. -/
def evaluate_hand (cards : List Card) : Int × List Int × String :=
  if cards.length ≠ 5 then (0, [], "")
  else
    let ranks := sortDescInt (cards.map (·.rank))
    let suits := cards.map (·.suit)
    let rank_counts := counts ranks
    let cvals := rank_counts.map (·.2)
    let is_flush := (uniqueKeys suits).length = 1
    let st := check_straight ranks
    if st.1 = true ∧ is_flush then
      if st.2 = 14 then (10, [14], "Royal Flush")
      else (9, [st.2], "Straight Flush")
    else if 4 ∈ cvals then
      (8, [firstWithCount rank_counts 4, firstWithCount rank_counts 1], "Four of a Kind")
    else if 3 ∈ cvals ∧ 2 ∈ cvals then
      (7, [firstWithCount rank_counts 3, firstWithCount rank_counts 2], "Full House")
    else if is_flush then (6, ranks, "Flush")
    else if st.1 = true then (5, [st.2], "Straight")
    else if 3 ∈ cvals then
      (4, firstWithCount rank_counts 3 :: sortDescInt (ranksWithCount rank_counts 1), "Three of a Kind")
    else if cvals.count 2 = 2 then
      (3, sortDescInt (ranksWithCount rank_counts 2) ++ [firstWithCount rank_counts 1], "Two Pair")
    else if 2 ∈ cvals then
      (2, firstWithCount rank_counts 2 :: sortDescInt (ranksWithCount rank_counts 1), "Pair")
    else (1, ranks, "High Card")

/-- engine/hand_evaluator.py `HandEvaluator.get_best_hand`: best of the
21 five-card combinations; the ValueError on fewer than 5 cards is
modelled by the fold returning its `(none, 0, [], "")` start value. -/
def get_best_hand (hole community : List Card) :
    Option (List Card) × Int × List Int × String :=
  let all_cards := hole ++ community
  (combos all_cards 5).foldl
    (fun best combo =>
      let e := evaluate_hand combo
      if keyGt (e.1, e.2.1) (best.2.1, best.2.2.1) then
        (some combo, e.1, e.2.1, e.2.2)
      else best)
    (none, 0, [], "")

/-- One row of `HandEvaluator.compare_hands` output. -/
structure HandResult where
  player_id : String
  rank : Int
  tiebreakers : List Int
  name : String
  cards : Option (List Card)
  deriving DecidableEq, Repr

/-- engine/hand_evaluator.py `HandEvaluator.compare_hands`: evaluate
every hand and stable-sort descending by `(rank, tiebreakers)`. -/
def compare_hands (hands : List (String × List Card × List Card)) :
    List HandResult :=
  let results := hands.map (fun h =>
    let r := get_best_hand h.2.1 h.2.2
    { player_id := h.1, rank := r.2.1, tiebreakers := r.2.2.1,
      name := r.2.2.2, cards := r.1 })
  sortDescBy (fun a b => keyGe (a.rank, a.tiebreakers) (b.rank, b.tiebreakers)) results

/-- engine/hand_evaluator.py `HandEvaluator.determine_winners`: all rows
tied with the best row. -/
def determine_winners (hands : List (String × List Card × List Card)) :
    List HandResult :=
  match compare_hands hands with
  | [] => []
  | best :: rest =>
    (best :: rest).filter
      (fun h => h.rank == best.rank && h.tiebreakers == best.tiebreakers)

/-- Result triple of the rules validators:
`(is_valid, error_message, actual_amount)`. -/
structure ValidationResult where
  ok : Bool
  msg : String
  amount : Option Int
  deriving DecidableEq, Repr

/-- engine/rules.py `RulesEngine._validate_check`. -/
def validate_check (gs : GameState) (p : Player) : ValidationResult :=
  let amount_to_call := gs.current_bet - p.current_bet
  if amount_to_call > 0 then
    ⟨false, "Cannot check. Must call or fold", none⟩
  else ⟨true, "", some 0⟩

/-- engine/rules.py `RulesEngine._validate_call`. -/
def validate_call (gs : GameState) (p : Player) : ValidationResult :=
  let amount_to_call := gs.current_bet - p.current_bet
  if amount_to_call ≤ 0 then
    ⟨false, "Nothing to call. Use check instead", none⟩
  else ⟨true, "", some (min amount_to_call p.chips)⟩

/-- engine/rules.py `RulesEngine._validate_bet`. -/
def validate_bet (gs : GameState) (p : Player) (amount : Int) : ValidationResult :=
  if gs.current_bet > 0 then
    ⟨false, "Cannot bet when there is an existing bet. Use raise instead", none⟩
  else if amount < gs.big_blind then
    ⟨false, "Minimum bet is the big blind", none⟩
  else if amount > p.chips then
    ⟨false, "Cannot bet more chips than you have", none⟩
  else ⟨true, "", some amount⟩

/-- engine/rules.py `RulesEngine._validate_raise`; `amount` is the
target TOTAL bet the player wants to make. -/
def validate_raise (gs : GameState) (p : Player) (amount : Int) : ValidationResult :=
  if gs.current_bet = 0 then
    ⟨false, "Cannot raise when there is no bet. Use bet instead", none⟩
  else
    let raise_increment := amount - gs.current_bet
    if raise_increment < gs.min_raise then
      if amount ≥ p.chips then ⟨true, "", some p.chips⟩
      else ⟨false, "Minimum raise not met", none⟩
    else
      let total_needed := amount - p.current_bet
      if total_needed > p.chips then
        ⟨false, "Cannot raise to more than your chips allow", none⟩
      else ⟨true, "", some total_needed⟩

/-- engine/rules.py `RulesEngine.validate_action`. -/
def validate_action (gs : GameState) (pid : String) (a : PlayerAction) :
    ValidationResult :=
  if gs.current_player_id ≠ some pid then
    ⟨false, "Not your turn", none⟩
  else if gs.phase ≠ .betting then
    ⟨false, "Cannot act during this phase", none⟩
  else
    match findPlayer gs pid with
    | none => ⟨false, "Player not found", none⟩
    | some p =>
      if p.status ≠ .active then
        ⟨false, "Player cannot act with this status", none⟩
      else
        let amount := a.amount.getD 0
        match a.action_type with
        | .fold => ⟨true, "", some 0⟩
        | .check => validate_check gs p
        | .call => validate_call gs p
        | .bet => validate_bet gs p amount
        | .raise => validate_raise gs p amount
        | .all_in => ⟨true, "", some p.chips⟩

/-- One entry of the `get_valid_actions` output list. -/
structure ValidEntry where
  action_type : ActionType
  min_amount : Int
  max_amount : Int
  deriving DecidableEq, Repr

/-- engine/rules.py `RulesEngine.get_valid_actions`. -/
def get_valid_actions (gs : GameState) (pid : String) : List ValidEntry :=
  match findPlayer gs pid with
  | none => []
  | some p =>
    if p.status ≠ .active then []
    else if gs.current_player_id ≠ some pid then []
    else
      let amount_to_call := gs.current_bet - p.current_bet
      let foldE : List ValidEntry := [⟨.fold, 0, 0⟩]
      let middle : List ValidEntry :=
        if amount_to_call = 0 then
          [⟨.check, 0, 0⟩] ++
          (if p.chips > 0 then
            [⟨.bet, min gs.big_blind p.chips, p.chips⟩]
          else [])
        else
          let call_amount := min amount_to_call p.chips
          [⟨.call, call_amount, call_amount⟩] ++
          (if p.chips > amount_to_call then
            let min_raise_to := gs.current_bet + gs.min_raise
            let min_raise_amount := min_raise_to - p.current_bet
            let max_raise_amount := p.chips
            if max_raise_amount ≥ min_raise_amount then
              [⟨.raise, min min_raise_to (p.chips + p.current_bet),
                p.chips + p.current_bet⟩]
            else []
          else [])
      let allinE : List ValidEntry :=
        if p.chips > 0 then [⟨.all_in, p.chips, p.chips⟩] else []
      foldE ++ middle ++ allinE

/-- engine/rules.py `RulesEngine.is_betting_round_complete`, including
the trailing last-raiser block whose every path returns True. -/
def is_betting_round_complete (gs : GameState) : Bool :=
  let active_players := gs.get_players_to_act
  if active_players.length ≤ 1 then true
  else if active_players.all (fun p =>
      p.has_acted && !(p.current_bet < gs.current_bet && p.status == .active)) then
    match gs.last_raiser_id with
    | some rid =>
      match findPlayer gs rid with
      | some r => if r.has_acted then true else true
      | none => true
    | none => true
  else false

/-- models/player.py `Player.reset_for_hand`. -/
def resetForHand (p : Player) : Player :=
  let p := { p with hole_cards := [], current_bet := 0, total_bet := 0,
                    has_acted := false, last_action := none,
                    is_dealer := false, is_small_blind := false,
                    is_big_blind := false }
  if p.chips > 0 ∧ p.status ≠ .disconnected then { p with status := .active }
  else if p.chips ≤ 0 then { p with status := .eliminated }
  else p

/-- models/player.py `Player.reset_for_betting_round`. -/
def resetForBettingRound (p : Player) : Player :=
  { p with current_bet := 0, has_acted := false }

/-- engine/game_engine.py `PokerGameEngine._rotate_dealer`. -/
def rotateDealer (gs : GameState) : GameState :=
  let active_players := gs.players.filter (fun p => p.status == .active)
  if active_players.isEmpty then gs
  else
    let num_players := active_players.length
    let dp := (gs.dealer_position + 1) % num_players
    let gs := { gs with dealer_position := dp }
    let dealer_pid := (active_players.getD dp default).player_id
    let gs := updatePlayer gs dealer_pid (fun p => { p with is_dealer := true })
    let sb_idx := if num_players = 2 then dp else (dp + 1) % num_players
    let bb_idx := if num_players = 2 then (dp + 1) % num_players
                  else (dp + 2) % num_players
    let gs := updatePlayer gs (active_players.getD sb_idx default).player_id
      (fun p => { p with is_small_blind := true })
    updatePlayer gs (active_players.getD bb_idx default).player_id
      (fun p => { p with is_big_blind := true })

/-- engine/game_engine.py `PokerGameEngine._deal_hole_cards`: one card
at a time, twice around; dealing from an exhausted deck (which raises
in Python) deals nothing. -/
def dealRound (gs : GameState) (deck : List Card) (pids : List String) :
    GameState × List Card :=
  pids.foldl
    (fun st pid =>
      match st.2 with
      | [] => st
      | c :: rest =>
        (updatePlayer st.1 pid (fun p => { p with hole_cards := p.hole_cards ++ [c] }),
         rest))
    (gs, deck)

/-- Both passes of `_deal_hole_cards`. -/
def dealHoleCards (gs : GameState) (deck : List Card) : GameState × List Card :=
  let active_pids :=
    (gs.players.filter (fun p => p.status == .active)).map (·.player_id)
  let st := dealRound gs deck active_pids
  dealRound st.1 st.2 active_pids

/-- engine/game_engine.py `PokerGameEngine._add_action_history`
(timestamp omitted; username looked up from the merged list). -/
def addActionHistory (gs : GameState) (pid : String) (action : String)
    (amount : Int) : GameState :=
  { gs with action_history := gs.action_history ++
      [⟨pid, ((findPlayer gs pid).getD default).username, action, amount,
        gs.betting_round⟩] }

/-- engine/game_engine.py `PokerGameEngine._post_blinds`: iterate the
players, small blind pays `min(small_blind, chips)`, big blind pays
`min(big_blind, chips)` and establishes the table `current_bet`. -/
def postBlinds (gs : GameState) : GameState :=
  gs.players.foldl
    (fun g p =>
      if p.is_small_blind then
        let blind_amount := min g.small_blind p.chips
        let g := updatePlayer g p.player_id (fun q =>
          { q with chips := q.chips - blind_amount,
                   current_bet := blind_amount, total_bet := blind_amount })
        let g := { g with pots := addToPot0 g.pots blind_amount }
        addActionHistory g p.player_id "small_blind" blind_amount
      else if p.is_big_blind then
        let blind_amount := min g.big_blind p.chips
        let g := updatePlayer g p.player_id (fun q =>
          { q with chips := q.chips - blind_amount,
                   current_bet := blind_amount, total_bet := blind_amount })
        let g := { g with pots := addToPot0 g.pots blind_amount,
                          current_bet := blind_amount }
        addActionHistory g p.player_id "big_blind" blind_amount
      else g)
    gs

/-- engine/game_engine.py `PokerGameEngine._set_next_player`. -/
def setNextPlayer (gs : GameState) : GameState :=
  let players_to_act := gs.get_players_to_act
  if players_to_act.isEmpty then { gs with current_player_id := none }
  else
    let current_order := players_to_act.map (·.player_id)
    let next_idx :=
      match gs.current_player_id with
      | some cpid =>
        if cpid ∈ current_order then
          ((current_order.indexOf cpid) + 1) % current_order.length
        else
          match players_to_act.findIdx? (fun p => p.is_big_blind) with
          | some i => (i + 1) % current_order.length
          | none => 0
      | none =>
        match players_to_act.findIdx? (fun p => p.is_big_blind) with
        | some i => (i + 1) % current_order.length
        | none => 0
    { gs with current_player_id := some (current_order.getD next_idx "") }

/-- engine/game_engine.py `PokerGameEngine._set_first_to_act`. -/
def setFirstToAct (gs : GameState) : GameState :=
  let active_players := gs.get_players_to_act
  if active_players.isEmpty then { gs with current_player_id := none }
  else
    let player_order := active_players.map (·.player_id)
    let dealer_pos := gs.dealer_position % player_order.length
    let first_pos := (dealer_pos + 1) % player_order.length
    { gs with current_player_id := some (player_order.getD first_pos "") }

/-- engine/game_engine.py `PokerGameEngine._evaluate_showdown`:
evaluate the contenders, then give winner `i` a share of
`total_pot // W` plus one remainder chip when `i < total_pot % W`. -/
def evaluateShowdown (gs : GameState) (players : List Player) : GameState :=
  let hands := players.map (fun p => (p.player_id, p.hole_cards, gs.community_cards))
  let winners := determine_winners hands
  let total_pot := gs.get_total_pot
  if winners.isEmpty then gs
  else
    let share := total_pot.ediv winners.length
    let remainder := total_pot.emod winners.length
    let recs : List WinRec := winners.enum.map (fun iw =>
      let amount := share + (if (iw.1 : Int) < remainder then 1 else 0)
      { player_id := iw.2.player_id,
        username := ((findPlayer gs iw.2.player_id).getD default).username,
        amount := amount, hand := iw.2.name })
    let gs := recs.foldl
      (fun g r => updatePlayer g r.player_id
        (fun p => { p with chips := p.chips + r.amount }))
      gs
    { gs with hand_winners := recs }

/-- engine/game_engine.py `PokerGameEngine._end_hand`. -/
def endHand (gs : GameState) : GameState :=
  let gs := { gs with phase := .showdown, betting_round := .showdown,
                      current_player_id := none }
  let active_players := gs.get_active_players
  let gs :=
    if active_players.length = 1 then
      let winner := active_players.headD default
      let pot := gs.get_total_pot
      let gs := updatePlayer gs winner.player_id
        (fun p => { p with chips := p.chips + pot })
      { gs with hand_winners :=
          [⟨winner.player_id, winner.username, pot, "Everyone else folded"⟩] }
    else evaluateShowdown gs active_players
  { gs with pots := gs.pots.map (fun pot => { pot with amount := 0 }),
            phase := .hand_complete }

/-- engine/game_engine.py `PokerGameEngine._advance_betting_round`.
The Python method recurses while at most one player can act; from any
betting round, at most 4 nested activations reach `_end_hand`, so a
fuel of 4 is exact.  (Called on the SHOWDOWN round with at most one
player to act, Python recurses forever; exhausted fuel returns the
state unchanged there.) -/
def advanceBettingRound : Nat → GameState → List Card → GameState × List Card
  | 0, gs, deck => (gs, deck)
  | fuel + 1, gs, deck =>
    let gs := { gs with players := gs.players.map resetForBettingRound,
                        current_bet := 0, min_raise := gs.big_blind,
                        last_raiser_id := none }
    match gs.betting_round with
    | .river => (endHand gs, deck)
    | round =>
      let gs :=
        match round with
        | .preflop => { gs with betting_round := .flop,
                                community_cards := gs.community_cards ++ deck.take 3 }
        | .flop => { gs with betting_round := .turn,
                             community_cards := gs.community_cards ++ deck.take 1 }
        | .turn => { gs with betting_round := .river,
                             community_cards := gs.community_cards ++ deck.take 1 }
        | _ => gs
      let deck :=
        match round with
        | .preflop => deck.drop 3
        | .flop => deck.drop 1
        | .turn => deck.drop 1
        | _ => deck
      let gs := setFirstToAct gs
      if gs.get_players_to_act.length ≤ 1 then
        advanceBettingRound fuel gs deck
      else (gs, deck)

/-- engine/game_engine.py `PokerGameEngine._check_betting_round_complete`. -/
def checkBettingRoundComplete (gs : GameState) (deck : List Card) :
    GameState × List Card :=
  if ¬ is_betting_round_complete gs then (setNextPlayer gs, deck)
  else if gs.get_active_players.length ≤ 1 then (endHand gs, deck)
  else advanceBettingRound 4 gs deck

/-- The state mutations of a rules-validated action in
`PokerGameEngine.process_action` (lines 219-309), including marking the
actor as having acted and appending to the history. -/
def applyValidAction (gs : GameState) (pid : String) (action_type : ActionType)
    (actual : Int) : GameState :=
  let gs :=
    match action_type with
    | .fold =>
      updatePlayer gs pid (fun p => { p with status := .folded,
                                             last_action := some "fold" })
    | .check =>
      updatePlayer gs pid (fun p => { p with last_action := some "check" })
    | .call =>
      let gs := updatePlayer gs pid (fun p =>
        let p := { p with chips := p.chips - actual,
                          current_bet := p.current_bet + actual,
                          total_bet := p.total_bet + actual,
                          last_action := some "call" }
        if p.chips = 0 then { p with status := .all_in } else p)
      { gs with pots := addToPot0 gs.pots actual }
    | .bet =>
      let gs := updatePlayer gs pid (fun p =>
        { p with chips := p.chips - actual, current_bet := actual,
                 total_bet := p.total_bet + actual, last_action := some "bet" })
      let gs := { gs with pots := addToPot0 gs.pots actual,
                          current_bet := actual, min_raise := actual,
                          last_raiser_id := some pid }
      let gs := { gs with players := gs.players.map (fun q =>
        if q.status = .active ∧ q.player_id ≠ pid then
          { q with has_acted := false } else q) }
      updatePlayer gs pid (fun p =>
        if p.chips = 0 then { p with status := .all_in } else p)
    | .raise =>
      match findPlayer gs pid with
      | none => gs
      | some p0 =>
        let new_total_bet := p0.current_bet + actual
        let raise_increment := new_total_bet - gs.current_bet
        let gs := updatePlayer gs pid (fun p =>
          { p with chips := p.chips - actual, current_bet := new_total_bet,
                   total_bet := p.total_bet + actual,
                   last_action := some "raise" })
        let gs := { gs with pots := addToPot0 gs.pots actual,
                            min_raise := max gs.min_raise raise_increment,
                            current_bet := new_total_bet,
                            last_raiser_id := some pid }
        let gs := { gs with players := gs.players.map (fun q =>
          if q.status = .active ∧ q.player_id ≠ pid then
            { q with has_acted := false } else q) }
        updatePlayer gs pid (fun p =>
          if p.chips = 0 then { p with status := .all_in } else p)
    | .all_in =>
      match findPlayer gs pid with
      | none => gs
      | some p0 =>
        let all_in_amount := p0.chips
        let new_total_bet := p0.current_bet + all_in_amount
        let gs := updatePlayer gs pid (fun p =>
          { p with chips := 0, current_bet := new_total_bet,
                   total_bet := p.total_bet + all_in_amount,
                   status := .all_in, last_action := some "all-in" })
        let gs := { gs with pots := addToPot0 gs.pots all_in_amount }
        if new_total_bet > gs.current_bet then
          let gs := { gs with
            min_raise := max gs.min_raise (new_total_bet - gs.current_bet),
            current_bet := new_total_bet, last_raiser_id := some pid }
          { gs with players := gs.players.map (fun q =>
            if q.status = .active ∧ q.player_id ≠ pid then
              { q with has_acted := false } else q) }
        else gs
  let gs := updatePlayer gs pid (fun p => { p with has_acted := true })
  addActionHistory gs pid
    (match action_type with
     | .fold => "fold" | .check => "check" | .call => "call"
     | .bet => "bet" | .raise => "raise" | .all_in => "all_in")
    actual

/-- engine/game_engine.py `PokerGameEngine.process_action`. -/
def processAction (gs : GameState) (deck : List Card) (pid : String)
    (a : PlayerAction) : GameState × List Card × ValidatedAction :=
  let v := validate_action gs pid a
  if v.ok then
    let actual := v.amount.getD 0
    let gs1 := applyValidAction gs pid a.action_type actual
    let st := checkBettingRoundComplete gs1 deck
    (st.1, st.2, ⟨pid, a.action_type, actual, true, none⟩)
  else
    (gs, deck, ⟨pid, a.action_type, 0, false, some v.msg⟩)

/-- engine/game_engine.py `PokerGameEngine.start_hand`, parameterised by
the freshly shuffled deck `d` (`Deck.reset` shuffles randomly).
Returns `none` when fewer than two players are eligible (Python
returns False without mutating). -/
def startHand (gs : GameState) (d : List Card) :
    Option (GameState × List Card) :=
  let eligible := gs.players.filter
    (fun p => p.chips > 0 && p.status != .disconnected)
  if eligible.length < 2 then none
  else
    let gs := { gs with
      hand_number := gs.hand_number + 1, phase := .dealing,
      betting_round := .preflop, community_cards := [],
      pots := [⟨0, []⟩], current_bet := 0, min_raise := gs.big_blind,
      last_raiser_id := none, action_history := [], hand_winners := [] }
    let gs := { gs with players := gs.players.map resetForHand }
    let gs :=
      { gs with players := gs.players.filter (fun p => p.status != .eliminated) }
    let gs := rotateDealer gs
    let st := dealHoleCards gs d
    let gs := postBlinds st.1
    let gs := { gs with phase := .betting }
    some (setNextPlayer gs, st.2)

/-- Sum of all chip stacks on the table. -/
def chipSum (l : List Player) : Int := (l.map (·.chips)).sum

/-- A convenience constructor for concrete players (defaults mirror the
Player model defaults). -/
def mkPlayer (pid : String) (chips : Int) (seat : Int) : Player :=
  { player_id := pid, username := pid, chips := chips, hole_cards := [],
    current_bet := 0, total_bet := 0, status := .active, seat_position := seat,
    is_dealer := false, is_small_blind := false, is_big_blind := false,
    has_acted := false, last_action := none }

/-- A convenience constructor for concrete game states. -/
def mkGameState (players : List Player) (pots : List PotInfo)
    (cpid : Option String) (cb mr : Int) : GameState :=
  { hand_number := 1, phase := .betting, betting_round := .preflop,
    players := players, community_cards := [], pots := pots,
    current_player_id := cpid, dealer_position := 0,
    small_blind := 10, big_blind := 20, current_bet := cb, min_raise := mr,
    last_raiser_id := none, action_history := [], hand_winners := [] }

/-- Modelled from the spec words of claim C2: round complete when (a)
only one player remains ACTIVE or ALL_IN, or (b) every ACTIVE player
has acted and has a round bet equal to the table current_bet. -/
abbrev spec_round_complete (gs : GameState) : Prop :=
  gs.get_active_players.length = 1 ∨
  ∀ p ∈ gs.get_players_to_act, p.has_acted = true ∧ p.current_bet = gs.current_bet

/-- Modelled from the spec words of claim C3: a RAISE to target total
`T` is accepted iff `current_bet > 0`, the added amount is at most the
stack, and the increment meets `min_raise` unless the player commits
the entire stack. -/
abbrev spec_raise_ok (gs : GameState) (p : Player) (T : Int) : Prop :=
  0 < gs.current_bet ∧ T - p.current_bet ≤ p.chips ∧
  (gs.min_raise ≤ T - gs.current_bet ∨ T - p.current_bet = p.chips)

/-- Claim C4's reading of `get_valid_actions`: the action type is
listed and, for BET and RAISE, the amount lies in the inclusive
`[min_amount, max_amount]` range. -/
def listedWith (gs : GameState) (pid : String) (act : ActionType) (A : Int) :
    Bool :=
  (get_valid_actions gs pid).any (fun e =>
    e.action_type == act &&
    (if act == ActionType.bet || act == ActionType.raise then
      decide (e.min_amount ≤ A) && decide (A ≤ e.max_amount)
    else true))

/-- Evaluation key of a contender at showdown. -/
def handKey (p : Player) (community : List Card) : Int × List Int :=
  let r := get_best_hand p.hole_cards community
  (r.2.1, r.2.2.1)

/-- C9 witness input: it is the turn of player A, so an action by B
must be rejected. -/
def gsW9 : GameState :=
  mkGameState [mkPlayer "A" 100 0, mkPlayer "B" 100 1] [⟨30, []⟩] (some "A") 0 20

/-- C1 counterexample input: A is the only non-folded player and folds;
`_end_hand` then finds no contenders and zeroes the 50-chip pot without
awarding it. -/
def gsC1 : GameState :=
  mkGameState [mkPlayer "A" 100 0, { mkPlayer "B" 200 1 with status := .folded }]
    [⟨50, []⟩] (some "A") 0 20

/-- C1 witness input: A checks while B still has to act. -/
def gsW1 : GameState :=
  mkGameState [mkPlayer "A" 100 0, mkPlayer "B" 200 1] [⟨30, []⟩] (some "A") 0 20

/-- C2 counterexample input: B and C are all-in and A has not acted, so
three players remain in the hand and the ACTIVE player has not acted,
yet the source returns True (only one ACTIVE player). -/
def gsC2 : GameState :=
  mkGameState
    [mkPlayer "A" 100 0,
     { mkPlayer "B" 0 1 with status := .all_in, current_bet := 50 },
     { mkPlayer "C" 0 2 with status := .all_in, current_bet := 50 }]
    [⟨150, []⟩] (some "A") 50 20

/-- C3 counterexample input: table bet 100, min raise 40; the acting
player B has 60 already in this round and 80 chips behind. -/
def gsC3 : GameState :=
  mkGameState
    [{ mkPlayer "A" 500 0 with current_bet := 100, has_acted := true },
     { mkPlayer "B" 80 1 with current_bet := 60 }]
    [⟨200, []⟩] (some "B") 100 40

/-- C3 witness input, the spec scenario: blinds 10/20, the opener
raised to 60 (so min raise is 40); B has 20 in and 200 behind. -/
def gsW3 : GameState :=
  mkGameState
    [{ mkPlayer "A" 440 0 with current_bet := 60, has_acted := true },
     { mkPlayer "B" 200 1 with current_bet := 20 }]
    [⟨90, []⟩] (some "B") 60 40

/-- C4 counterexample input: the big blind preflop after a limp; the
table bet equals the big blind's round bet. -/
def gsC4 : GameState :=
  mkGameState
    [{ mkPlayer "A" 980 0 with current_bet := 20, has_acted := true },
     { mkPlayer "B" 980 1 with current_bet := 20 }]
    [⟨40, []⟩] (some "B") 20 20

/-- C4 witness input: B faces a bet of 60 holding 20 in and 500
behind, and the state satisfies the amended well-formedness bounds. -/
def gsW4 : GameState :=
  mkGameState
    [{ mkPlayer "A" 440 0 with current_bet := 60, has_acted := true },
     { mkPlayer "B" 500 1 with current_bet := 20 }]
    [⟨100, []⟩] (some "B") 60 40

/-- C5 witness board: both contenders play the board. -/
def boardC5 : List Card :=
  [⟨10, .c⟩, ⟨11, .c⟩, ⟨12, .c⟩, ⟨13, .c⟩, ⟨14, .c⟩]

/-- C5 witness contender A: all-in with irrelevant hole cards. -/
def pW5A : Player :=
  { mkPlayer "A" 0 0 with status := .all_in, hole_cards := [⟨2, .d⟩, ⟨3, .h⟩] }

/-- C5 witness contender B: all-in with irrelevant hole cards. -/
def pW5B : Player :=
  { mkPlayer "B" 0 1 with status := .all_in, hole_cards := [⟨2, .h⟩, ⟨3, .s⟩] }

/-- C5 witness input: two tied all-in contenders and a 500-chip pot. -/
def gsW5 : GameState :=
  { mkGameState [pW5A, pW5B] [⟨500, []⟩] none 0 20
    with community_cards := boardC5, betting_round := .river }

/-- C6 failing input: the small blind has 5 chips, fewer than the
nominal small blind of 10. -/
def gsC6 : GameState :=
  { mkGameState
      [{ mkPlayer "SB" 5 0 with is_small_blind := true },
       { mkPlayer "BB" 1000 1 with is_big_blind := true }]
      [⟨0, []⟩] none 0 0
    with phase := .dealing }

/-- C7 witness input: a fresh heads-up table, dealer position 0 before
rotation. -/
def gsW7 : GameState :=
  { mkGameState [mkPlayer "A" 1000 0, mkPlayer "B" 1000 1] [] none 0 0
    with phase := .waiting, current_player_id := none }

/-- A deck fragment for the C7 witness (contents are irrelevant to
seating claims). -/
def deckW7 : List Card := [⟨2, .c⟩, ⟨3, .c⟩, ⟨4, .c⟩, ⟨5, .c⟩, ⟨6, .c⟩]

/-- C7 witness input for the three-handed dealer rotation. -/
def gsW7r : GameState :=
  mkGameState [mkPlayer "P" 1000 0, mkPlayer "Q" 1000 1, mkPlayer "R" 1000 2]
    [] none 0 20

/-- C7 witness big-blind player for the first-to-act parts. -/
def pW7A : Player :=
  { mkPlayer "A" 980 0 with is_big_blind := true, current_bet := 20 }

/-- C7 witness dealer/small-blind player for the first-to-act parts. -/
def pW7B : Player :=
  { mkPlayer "B" 990 1 with
    is_dealer := true, is_small_blind := true, current_bet := 10 }

/-- C7 witness heads-up state after blinds: dealer position 1 (player
B), big blind A, nobody has acted yet. -/
def gsW7n : GameState :=
  { mkGameState [pW7A, pW7B] [⟨30, []⟩] none 20 20 with dealer_position := 1 }

/-- C10 counterexample input: B already acted, so a fold by A completes
the round, ends the hand and moves the pot into the chips of B. -/
def gsC10 : GameState :=
  mkGameState [mkPlayer "A" 1000 0, { mkPlayer "B" 500 1 with has_acted := true }]
    [⟨100, []⟩] (some "A") 0 20

/-- C10 witness input: three players still to act, so a check by A
leaves the round incomplete. -/
def gsW10 : GameState :=
  mkGameState
    [mkPlayer "A" 1000 0, mkPlayer "B" 1000 1, mkPlayer "C" 1000 2]
    [⟨60, []⟩] (some "A") 0 20

/-!
Theorems.  First a layer of generic lemmas about the Python comparator
and the stable descending sort, then the claim theorems C1..C10.
-/

theorem cmpInt_lt_iff (a b : Int) : cmpInt a b = .lt ↔ a < b := by
  unfold cmpInt
  rcases lt_trichotomy a b with h | h | h
  · simp [h]
  · have h1 : ¬ a < b := by omega
    have h2 : ¬ b < a := by omega
    simp [h1, h2] <;> omega
  · have h1 : ¬ a < b := by omega
    simp [h1, h] <;> omega

theorem cmpInt_gt_iff (a b : Int) : cmpInt a b = .gt ↔ b < a := by
  unfold cmpInt
  rcases lt_trichotomy a b with h | h | h
  · simp [h] <;> omega
  · have h1 : ¬ a < b := by omega
    have h2 : ¬ b < a := by omega
    simp [h1, h2] <;> omega
  · have h1 : ¬ a < b := by omega
    simp [h1, h]

theorem cmpInt_eq_iff (a b : Int) : cmpInt a b = .eq ↔ a = b := by
  unfold cmpInt
  rcases lt_trichotomy a b with h | h | h
  · simp [h] <;> omega
  · have h1 : ¬ a < b := by omega
    have h2 : ¬ b < a := by omega
    simp [h1, h2] <;> omega
  · have h1 : ¬ a < b := by omega
    simp [h1, h] <;> omega

theorem cmpIntList_eq_iff (a : List Int) : ∀ b, cmpIntList a b = .eq ↔ a = b := by
  induction a with
  | nil => intro b; cases b <;> simp [cmpIntList]
  | cons x xs ih =>
    intro b
    cases b with
    | nil => simp [cmpIntList]
    | cons y ys =>
      show (match cmpInt x y with
            | .eq => cmpIntList xs ys
            | o => o) = .eq ↔ x :: xs = y :: ys
      cases h : cmpInt x y with
      | eq =>
        have hxy : x = y := (cmpInt_eq_iff x y).mp h
        simp [ih, hxy]
      | lt =>
        have hxy : x ≠ y := by
          intro e
          rw [e, (cmpInt_eq_iff y y).mpr rfl] at h
          cases h
        simp [hxy]
      | gt =>
        have hxy : x ≠ y := by
          intro e
          rw [e, (cmpInt_eq_iff y y).mpr rfl] at h
          cases h
        simp [hxy]

theorem cmpInt_swap (a b : Int) : cmpInt b a = (cmpInt a b).swap := by
  unfold cmpInt
  rcases lt_trichotomy a b with h | h | h
  · have h2 : ¬ b < a := by omega
    simp [h, h2, Ordering.swap]
  · have h1 : ¬ a < b := by omega
    have h2 : ¬ b < a := by omega
    simp [h1, h2, Ordering.swap]
  · have h1 : ¬ a < b := by omega
    simp [h1, h, Ordering.swap]

theorem cmpIntList_swap (a : List Int) : ∀ b, cmpIntList b a = (cmpIntList a b).swap := by
  induction a with
  | nil => intro b; cases b <;> simp [cmpIntList, Ordering.swap]
  | cons x xs ih =>
    intro b
    cases b with
    | nil => simp [cmpIntList, Ordering.swap]
    | cons y ys =>
      show (match cmpInt y x with
            | .eq => cmpIntList ys xs
            | o => o) =
           (match cmpInt x y with
            | .eq => cmpIntList xs ys
            | o => o).swap
      rw [cmpInt_swap x y]
      cases cmpInt x y with
      | eq => exact ih ys
      | lt => rfl
      | gt => rfl

theorem cmpIntList_lt_trans (a : List Int) :
    ∀ b c, cmpIntList a b = .lt → cmpIntList b c = .lt → cmpIntList a c = .lt := by
  induction a with
  | nil =>
    intro b c hab hbc
    cases b with
    | nil => cases hab
    | cons y ys =>
      cases c with
      | nil => cases hbc
      | cons z zs => rfl
  | cons x xs ih =>
    intro b c hab hbc
    cases b with
    | nil => cases hab
    | cons y ys =>
      cases c with
      | nil => cases hbc
      | cons z zs =>
        show (match cmpInt x z with
              | .eq => cmpIntList xs zs
              | o => o) = .lt
        have hab' : (match cmpInt x y with
              | .eq => cmpIntList xs ys
              | o => o) = .lt := hab
        have hbc' : (match cmpInt y z with
              | .eq => cmpIntList ys zs
              | o => o) = .lt := hbc
        cases h1 : cmpInt x y with
        | gt => rw [h1] at hab'; cases hab'
        | lt =>
          have hxy : x < y := (cmpInt_lt_iff x y).mp h1
          cases h2 : cmpInt y z with
          | gt => rw [h2] at hbc'; cases hbc'
          | lt =>
            have hyz : y < z := (cmpInt_lt_iff y z).mp h2
            rw [(cmpInt_lt_iff x z).mpr (by omega)]
          | eq =>
            have hyz : y = z := (cmpInt_eq_iff y z).mp h2
            rw [(cmpInt_lt_iff x z).mpr (by omega)]
        | eq =>
          have hxy : x = y := (cmpInt_eq_iff x y).mp h1
          rw [h1] at hab'
          cases h2 : cmpInt y z with
          | gt => rw [h2] at hbc'; cases hbc'
          | lt =>
            have hyz : y < z := (cmpInt_lt_iff y z).mp h2
            rw [(cmpInt_lt_iff x z).mpr (by omega)]
          | eq =>
            have hyz : y = z := (cmpInt_eq_iff y z).mp h2
            rw [h2] at hbc'
            rw [(cmpInt_eq_iff x z).mpr (by omega)]
            exact ih ys zs hab' hbc'

theorem cmpKey_eq_iff (a b : Int × List Int) : cmpKey a b = .eq ↔ a = b := by
  unfold cmpKey
  cases h : cmpInt a.1 b.1 with
  | eq =>
    have h1 : a.1 = b.1 := (cmpInt_eq_iff _ _).mp h
    rw [cmpIntList_eq_iff]
    constructor
    · intro h2; exact Prod.ext h1 h2
    · intro h2; rw [h2]
  | lt =>
    have h1 : a.1 ≠ b.1 := by
      intro e; rw [e, (cmpInt_eq_iff b.1 b.1).mpr rfl] at h; cases h
    simp only []
    constructor
    · intro h2; cases h2
    · intro h2; exact absurd (congrArg Prod.fst h2) h1
  | gt =>
    have h1 : a.1 ≠ b.1 := by
      intro e; rw [e, (cmpInt_eq_iff b.1 b.1).mpr rfl] at h; cases h
    simp only []
    constructor
    · intro h2; cases h2
    · intro h2; exact absurd (congrArg Prod.fst h2) h1

theorem cmpKey_swap (a b : Int × List Int) : cmpKey b a = (cmpKey a b).swap := by
  unfold cmpKey
  rw [cmpInt_swap a.1 b.1]
  cases cmpInt a.1 b.1 with
  | eq => exact cmpIntList_swap a.2 b.2
  | lt => rfl
  | gt => rfl

theorem cmpKey_lt_trans (a b c : Int × List Int) :
    cmpKey a b = .lt → cmpKey b c = .lt → cmpKey a c = .lt := by
  intro hab hbc
  unfold cmpKey at *
  cases h1 : cmpInt a.1 b.1 with
  | gt => rw [h1] at hab; cases hab
  | lt =>
    have hx : a.1 < b.1 := (cmpInt_lt_iff _ _).mp h1
    cases h2 : cmpInt b.1 c.1 with
    | gt => rw [h2] at hbc; cases hbc
    | lt =>
      have hy : b.1 < c.1 := (cmpInt_lt_iff _ _).mp h2
      rw [(cmpInt_lt_iff a.1 c.1).mpr (by omega)]
    | eq =>
      have hy : b.1 = c.1 := (cmpInt_eq_iff _ _).mp h2
      rw [(cmpInt_lt_iff a.1 c.1).mpr (by omega)]
  | eq =>
    have hx : a.1 = b.1 := (cmpInt_eq_iff _ _).mp h1
    rw [h1] at hab
    cases h2 : cmpInt b.1 c.1 with
    | gt => rw [h2] at hbc; cases hbc
    | lt =>
      have hy : b.1 < c.1 := (cmpInt_lt_iff _ _).mp h2
      rw [(cmpInt_lt_iff a.1 c.1).mpr (by omega)]
    | eq =>
      have hy : b.1 = c.1 := (cmpInt_eq_iff _ _).mp h2
      rw [h2] at hbc
      rw [(cmpInt_eq_iff a.1 c.1).mpr (by omega)]
      exact cmpIntList_lt_trans a.2 b.2 c.2 hab hbc

theorem keyGe_refl (a : Int × List Int) : keyGe a a = true := by
  unfold keyGe
  rw [(cmpKey_eq_iff a a).mpr rfl]
  rfl

theorem keyGe_total (a b : Int × List Int) : keyGe a b = true ∨ keyGe b a = true := by
  unfold keyGe
  by_cases h : cmpKey a b = .lt
  · right
    have hba : cmpKey b a = .gt := by rw [cmpKey_swap, h]; rfl
    rw [hba]
    rfl
  · left
    cases hab : cmpKey a b with
    | lt => exact absurd hab h
    | eq => rfl
    | gt => rfl

theorem keyGe_trans (a b c : Int × List Int) :
    keyGe a b = true → keyGe b c = true → keyGe a c = true := by
  unfold keyGe
  intro hab hbc
  cases hac : cmpKey a c with
  | eq => rfl
  | gt => rfl
  | lt =>
    exfalso
    cases h1 : cmpKey a b with
    | lt => rw [h1] at hab; exact absurd hab (by decide)
    | eq =>
      have he : a = b := (cmpKey_eq_iff a b).mp h1
      rw [he] at hac
      rw [hac] at hbc
      exact absurd hbc (by decide)
    | gt =>
      have hba : cmpKey b a = .lt := by rw [cmpKey_swap, h1]; rfl
      have hz : cmpKey b c = .lt := cmpKey_lt_trans b a c hba hac
      rw [hz] at hbc
      exact absurd hbc (by decide)

theorem insertDescBy_perm {α : Type} (ge : α → α → Bool) (x : α) (l : List α) :
    (insertDescBy ge x l).Perm (x :: l) := by
  induction l with
  | nil => exact List.Perm.refl _
  | cons y ys ih =>
    unfold insertDescBy
    split
    · exact (ih.cons y).trans (List.Perm.swap x y ys)
    · exact List.Perm.refl _

theorem sortDescBy_foldl_perm {α : Type} (ge : α → α → Bool) (l : List α) :
    ∀ acc : List α,
      (l.foldl (fun a x => insertDescBy ge x a) acc).Perm (acc ++ l) := by
  induction l with
  | nil => intro acc; simp
  | cons x xs ih =>
    intro acc
    have h1 := ih (insertDescBy ge x acc)
    have h2 : (insertDescBy ge x acc ++ xs).Perm ((x :: acc) ++ xs) :=
      (insertDescBy_perm ge x acc).append_right xs
    have h3 : ((x :: acc) ++ xs).Perm (acc ++ x :: xs) := by
      simpa using List.perm_middle.symm
    exact (h1.trans h2).trans h3

theorem sortDescBy_perm {α : Type} (ge : α → α → Bool) (l : List α) :
    (sortDescBy ge l).Perm l := by
  simpa using sortDescBy_foldl_perm ge l []

theorem insertDescBy_pairwise {α : Type} (ge : α → α → Bool)
    (total : ∀ a b, ge a b = true ∨ ge b a = true)
    (trns : ∀ a b c, ge a b = true → ge b c = true → ge a c = true)
    (x : α) (l : List α) (h : l.Pairwise (fun a b => ge a b = true)) :
    (insertDescBy ge x l).Pairwise (fun a b => ge a b = true) := by
  induction l with
  | nil => simp [insertDescBy]
  | cons y ys ih =>
    rcases List.pairwise_cons.mp h with ⟨hy, hys⟩
    unfold insertDescBy
    split
    · rename_i hgeyx
      refine List.Pairwise.cons ?_ (ih hys)
      intro z hz
      have hz2 : z ∈ x :: ys := (insertDescBy_perm ge x ys).mem_iff.mp hz
      rcases List.mem_cons.mp hz2 with rfl | hzys
      · exact hgeyx
      · exact hy z hzys
    · rename_i hnot
      have hxy : ge x y = true := by
        rcases total x y with h' | h'
        · exact h'
        · exact absurd h' hnot
      refine List.Pairwise.cons ?_ h
      intro z hz
      rcases List.mem_cons.mp hz with rfl | hzys
      · exact hxy
      · exact trns x y z hxy (hy z hzys)

theorem sortDescBy_pairwise {α : Type} (ge : α → α → Bool)
    (total : ∀ a b, ge a b = true ∨ ge b a = true)
    (trns : ∀ a b c, ge a b = true → ge b c = true → ge a c = true)
    (l : List α) :
    (sortDescBy ge l).Pairwise (fun a b => ge a b = true) := by
  have main : ∀ acc : List α, acc.Pairwise (fun a b => ge a b = true) →
      (l.foldl (fun a x => insertDescBy ge x a) acc).Pairwise
        (fun a b => ge a b = true) := by
    induction l with
    | nil => intro acc hacc; simpa using hacc
    | cons x xs ih =>
      intro acc hacc
      exact ih (insertDescBy ge x acc)
        (insertDescBy_pairwise ge total trns x acc hacc)
  exact main [] List.Pairwise.nil

theorem sortDescBy_head_ge {α : Type} (ge : α → α → Bool)
    (total : ∀ a b, ge a b = true ∨ ge b a = true)
    (trns : ∀ a b c, ge a b = true → ge b c = true → ge a c = true)
    (refl : ∀ a, ge a a = true)
    (l : List α) {h : α} {t : List α} (hl : sortDescBy ge l = h :: t) :
    ∀ x ∈ sortDescBy ge l, ge h x = true := by
  intro x hx
  have hp := sortDescBy_pairwise ge total trns l
  rw [hl] at hp hx
  rcases List.mem_cons.mp hx with rfl | hxt
  · exact refl x
  · exact (List.pairwise_cons.mp hp).1 x hxt

/-- Claim C9: for every action rejected by validate_action,
process_action returns an invalid result carrying an error message and
leaves the entire game state (and the deck) unchanged. -/
theorem C9_rejected_action_atomic (gs : GameState) (deck : List Card)
    (pid : String) (a : PlayerAction)
    (h : (validate_action gs pid a).ok = false) :
    processAction gs deck pid a =
      (gs, deck,
        ⟨pid, a.action_type, 0, false, some (validate_action gs pid a).msg⟩) ∧
    (processAction gs deck pid a).2.2.is_valid = false ∧
    (processAction gs deck pid a).2.2.error_message ≠ none := by
  have hmain : processAction gs deck pid a =
      (gs, deck,
        ⟨pid, a.action_type, 0, false, some (validate_action gs pid a).msg⟩) := by
    unfold processAction
    simp [h]
  refine ⟨hmain, ?_, ?_⟩ <;> rw [hmain] <;> simp

/-- Witness for C9: at gsW9 it is the turn of A, so a check by B is
rejected and changes nothing. -/
theorem C9_witness :
    (validate_action gsW9 "B" ⟨.check, none⟩).ok = false ∧
    (processAction gsW9 [] "B" ⟨.check, none⟩ =
      (gsW9, [],
        ⟨"B", .check, 0, false, some (validate_action gsW9 "B" ⟨.check, none⟩).msg⟩) ∧
     (processAction gsW9 [] "B" ⟨.check, none⟩).2.2.is_valid = false ∧
     (processAction gsW9 [] "B" ⟨.check, none⟩).2.2.error_message ≠ none) :=
  ⟨by decide, C9_rejected_action_atomic gsW9 [] "B" ⟨.check, none⟩ (by decide)⟩

/-- Claim C6 (evidence for the code bug): posting blinds at gsC6 makes
the small blind pay min(10, 5) = 5 and reach 0 chips, yet the status
stays ACTIVE instead of becoming ALL_IN; the table current_bet equals
the 20 actually paid by the big blind. -/
theorem C6_blind_all_in_status_not_set :
    ((postBlinds gsC6).players.map
        (fun p => (p.player_id, p.chips, p.current_bet, p.status))) =
      [("SB", 0, 5, .active), ("BB", 980, 20, .active)] ∧
    (postBlinds gsC6).current_bet = 20 ∧
    ((postBlinds gsC6).players.headD default).status ≠ PlayerStatus.all_in :=
  ⟨by decide, by decide, by decide⟩

/-- Claim C2 (amended): the source predicate returns true exactly when
at most one player has status ACTIVE (regardless of ALL_IN players),
or every ACTIVE player has acted and has a round bet at least the
table current_bet. -/
theorem C2_round_complete_iff (gs : GameState) :
    is_betting_round_complete gs = true ↔
      (gs.get_players_to_act.length ≤ 1 ∨
       ∀ p ∈ gs.get_players_to_act,
         p.has_acted = true ∧ gs.current_bet ≤ p.current_bet) := by
  unfold is_betting_round_complete
  by_cases hlen : gs.get_players_to_act.length ≤ 1
  · simp [hlen]
  · have hiff : (gs.get_players_to_act.all (fun p =>
        p.has_acted && !(p.current_bet < gs.current_bet && p.status == .active))) = true ↔
        ∀ p ∈ gs.get_players_to_act,
          p.has_acted = true ∧ gs.current_bet ≤ p.current_bet := by
      rw [List.all_eq_true]
      constructor
      · intro h p hp
        have hact : p.status = .active := by
          simpa using (List.mem_filter.mp hp).2
        have h2 := h p hp
        simp [hact] at h2
        exact ⟨h2.1, h2.2⟩
      · intro h p hp
        have hact : p.status = .active := by
          simpa using (List.mem_filter.mp hp).2
        have h2 := h p hp
        simp [hact, h2.1]
        exact h2.2
    cases hall : (gs.get_players_to_act.all (fun p =>
        p.has_acted && !(p.current_bet < gs.current_bet && p.status == .active))) with
    | true =>
      have hmatch : (match gs.last_raiser_id with
          | some rid =>
            match findPlayer gs rid with
            | some r => if r.has_acted then true else true
            | none => true
          | none => true) = true := by
        cases gs.last_raiser_id with
        | none => rfl
        | some rid =>
          show (match findPlayer gs rid with
                | some r => if r.has_acted then true else true
                | none => true) = true
          cases findPlayer gs rid with
          | none => rfl
          | some r => simp
      simp only [hlen, if_false, hall, if_true, hmatch]
      simp only [true_iff]
      exact Or.inr (hiff.mp hall)
    | false =>
      simp only [hlen, if_false, hall, Bool.false_eq_true, if_false, false_iff]
      intro hc
      rcases hc with hc | hc
      · exact hc
      · have hh := hiff.mpr hc
        rw [hall] at hh
        cases hh

/-- Counterexample for C2 as stated: at gsC2 the source returns True
although three players remain ACTIVE or ALL_IN and the one ACTIVE
player has not acted (and its bet equals the table bet trivially
fails). -/
theorem C2_counterexample :
    is_betting_round_complete gsC2 = true ∧ ¬ spec_round_complete gsC2 :=
  ⟨by decide, by decide⟩

theorem validate_raise_characterization (gs : GameState) (p : Player) (T : Int) :
    ((validate_raise gs p T).ok = true ↔
      (gs.current_bet ≠ 0 ∧
       ((T - gs.current_bet < gs.min_raise ∧ p.chips ≤ T) ∨
        (gs.min_raise ≤ T - gs.current_bet ∧ T - p.current_bet ≤ p.chips)))) ∧
    (gs.current_bet ≠ 0 → T - gs.current_bet < gs.min_raise → p.chips ≤ T →
      (validate_raise gs p T).amount = some p.chips) ∧
    (gs.current_bet ≠ 0 → gs.min_raise ≤ T - gs.current_bet →
      T - p.current_bet ≤ p.chips →
      (validate_raise gs p T).amount = some (T - p.current_bet)) := by
  unfold validate_raise
  by_cases h0 : gs.current_bet = 0
  · simp [h0]
  · by_cases hshort : T - gs.current_bet < gs.min_raise
    · by_cases hallin : T ≥ p.chips
      · simp [h0, hshort, hallin] <;> omega
      · simp [h0, hshort, hallin] <;> omega
    · by_cases hafford : T - p.current_bet > p.chips
      · simp [h0, hshort, hafford] <;> omega
      · simp [h0, hshort, hafford] <;> omega

/-- Claim C3 (amended): with the acting player to move, ACTIVE, in the
BETTING phase and a nonnegative table bet, a RAISE to target total T is
accepted iff current_bet > 0 and either the increment T - current_bet
reaches min_raise with the added amount T - p.current_bet at most the
stack (normalized amount T - p.current_bet), or the increment is short
of min_raise and T itself is at least the stack - the code compares
the TARGET TOTAL, not the added amount, against the stack - in which
case the normalized amount is the whole stack p.chips.  The spec
scenario (blinds 10/20, opener raised to 60, raise to 90 rejected,
raise to 100 accepted adding 80) behaves as claimed. -/
theorem C3_raise_validation :
    (∀ (gs : GameState) (pid : String) (p : Player) (T : Int),
      gs.current_player_id = some pid →
      gs.phase = .betting →
      findPlayer gs pid = some p →
      p.status = .active →
      0 ≤ gs.current_bet →
      (((validate_action gs pid ⟨.raise, some T⟩).ok = true ↔
         (0 < gs.current_bet ∧
          ((T - gs.current_bet < gs.min_raise ∧ p.chips ≤ T) ∨
           (gs.min_raise ≤ T - gs.current_bet ∧ T - p.current_bet ≤ p.chips)))) ∧
       (0 < gs.current_bet → T - gs.current_bet < gs.min_raise → p.chips ≤ T →
         (validate_action gs pid ⟨.raise, some T⟩).amount = some p.chips) ∧
       (0 < gs.current_bet → gs.min_raise ≤ T - gs.current_bet →
         T - p.current_bet ≤ p.chips →
         (validate_action gs pid ⟨.raise, some T⟩).amount =
           some (T - p.current_bet)))) ∧
    (validate_action gsW3 "B" ⟨.raise, some 90⟩).ok = false ∧
    (validate_action gsW3 "B" ⟨.raise, some 100⟩).ok = true ∧
    (validate_action gsW3 "B" ⟨.raise, some 100⟩).amount = some 80 := by
  refine ⟨?_, by decide, by decide, by decide⟩
  intro gs pid p T hturn hphase hfind hstat hcb
  have hred : validate_action gs pid ⟨.raise, some T⟩ = validate_raise gs p T := by
    unfold validate_action
    rw [hturn, hphase, hfind]
    simp [hstat]
  rw [hred]
  have hc := validate_raise_characterization gs p T
  refine ⟨?_, ?_, ?_⟩
  · rw [hc.1]
    constructor
    · rintro ⟨h1, h2⟩; exact ⟨by omega, h2⟩
    · rintro ⟨h1, h2⟩; exact ⟨by omega, h2⟩
  · intro h1 h2 h3; exact hc.2.1 (by omega) h2 h3
  · intro h1 h2 h3; exact hc.2.2 (by omega) h2 h3

/-- Counterexample for C3 as stated: at gsC3 (table bet 100, min raise
40, the acting player has 60 in and 80 behind) a raise to 110 adds only
50 < 80 chips, so the player does not commit the entire stack and the
claim rejects it; the code accepts it with normalized amount 80. -/
theorem C3_counterexample :
    (validate_action gsC3 "B" ⟨.raise, some 110⟩).ok = true ∧
    (validate_action gsC3 "B" ⟨.raise, some 110⟩).amount = some 80 ∧
    ¬ spec_raise_ok gsC3 ({ mkPlayer "B" 80 1 with current_bet := 60 }) 110 ∧
    findPlayer gsC3 "B" = some ({ mkPlayer "B" 80 1 with current_bet := 60 }) :=
  ⟨by decide, by decide, by decide, by decide⟩

/-- Witness for C3: the amended characterization applied at gsW3 with
target total 100. -/
theorem C3_witness :
    (gsW3.current_player_id = some "B" ∧ gsW3.phase = .betting ∧
     findPlayer gsW3 "B" = some ({ mkPlayer "B" 200 1 with current_bet := 20 }) ∧
     ({ mkPlayer "B" 200 1 with current_bet := 20 } : Player).status = .active ∧
     0 ≤ gsW3.current_bet) ∧
    (((validate_action gsW3 "B" ⟨.raise, some 100⟩).ok = true ↔
       (0 < gsW3.current_bet ∧
        ((100 - gsW3.current_bet < gsW3.min_raise ∧
          ({ mkPlayer "B" 200 1 with current_bet := 20 } : Player).chips ≤ 100) ∨
         (gsW3.min_raise ≤ 100 - gsW3.current_bet ∧
          100 - ({ mkPlayer "B" 200 1 with current_bet := 20 } : Player).current_bet ≤
            ({ mkPlayer "B" 200 1 with current_bet := 20 } : Player).chips)))) ∧
     (0 < gsW3.current_bet → 100 - gsW3.current_bet < gsW3.min_raise →
       ({ mkPlayer "B" 200 1 with current_bet := 20 } : Player).chips ≤ 100 →
       (validate_action gsW3 "B" ⟨.raise, some 100⟩).amount =
         some ({ mkPlayer "B" 200 1 with current_bet := 20 } : Player).chips) ∧
     (0 < gsW3.current_bet → gsW3.min_raise ≤ 100 - gsW3.current_bet →
       100 - ({ mkPlayer "B" 200 1 with current_bet := 20 } : Player).current_bet ≤
         ({ mkPlayer "B" 200 1 with current_bet := 20 } : Player).chips →
       (validate_action gsW3 "B" ⟨.raise, some 100⟩).amount =
         some (100 - ({ mkPlayer "B" 200 1 with current_bet := 20 } : Player).current_bet))) :=
  ⟨⟨by decide, by decide, by decide, by decide, by decide⟩,
   C3_raise_validation.1 gsW3 "B" ({ mkPlayer "B" 200 1 with current_bet := 20 }) 100
     (by decide) (by decide) (by decide) (by decide) (by decide)⟩

theorem uniqueKeys_foldl_sublist {α : Type} [DecidableEq α] (l : List α) :
    ∀ acc : List α,
      (l.foldl (fun acc r => if r ∈ acc then acc else acc ++ [r]) acc).Sublist
        (acc ++ l) := by
  induction l with
  | nil => intro acc; simpa using List.Sublist.refl acc
  | cons x xs ih =>
    intro acc
    have step : (if x ∈ acc then acc else acc ++ [x]) ++ xs =
        (if x ∈ acc then acc ++ xs else acc ++ x :: xs) := by
      split <;> simp
    refine (ih _).trans ?_
    rw [step]
    split
    · refine List.Sublist.append_left ?_ acc
      exact List.sublist_cons_self x xs
    · simp

theorem uniqueKeys_sublist {α : Type} [DecidableEq α] (l : List α) :
    (uniqueKeys l).Sublist l := by
  simpa using uniqueKeys_foldl_sublist l []

theorem uniqueKeys_foldl_mem {α : Type} [DecidableEq α] (l : List α) (x : α) :
    ∀ acc : List α,
      (x ∈ l.foldl (fun acc r => if r ∈ acc then acc else acc ++ [r]) acc ↔
        x ∈ acc ∨ x ∈ l) := by
  induction l with
  | nil => intro acc; simp
  | cons y ys ih =>
    intro acc
    rw [List.foldl_cons, ih]
    by_cases hy : y ∈ acc
    · simp only [if_pos hy]
      constructor
      · rintro (h | h)
        · exact Or.inl h
        · exact Or.inr (List.mem_cons_of_mem y h)
      · rintro (h | h)
        · exact Or.inl h
        · rcases List.mem_cons.mp h with rfl | h2
          · exact Or.inl hy
          · exact Or.inr h2
    · simp only [if_neg hy, List.mem_append, List.mem_singleton]
      constructor
      · rintro ((h | h) | h)
        · exact Or.inl h
        · exact Or.inr (by simp [h])
        · exact Or.inr (List.mem_cons_of_mem y h)
      · rintro (h | h)
        · exact Or.inl (Or.inl h)
        · rcases List.mem_cons.mp h with rfl | h2
          · exact Or.inl (Or.inr rfl)
          · exact Or.inr h2

theorem uniqueKeys_mem {α : Type} [DecidableEq α] (l : List α) (x : α) :
    x ∈ uniqueKeys l ↔ x ∈ l := by
  unfold uniqueKeys
  rw [uniqueKeys_foldl_mem]
  simp

theorem uniqueKeys_foldl_nodup {α : Type} [DecidableEq α] (l : List α) :
    ∀ acc : List α, acc.Nodup →
      (l.foldl (fun acc r => if r ∈ acc then acc else acc ++ [r]) acc).Nodup := by
  induction l with
  | nil => intro acc h; simpa using h
  | cons x xs ih =>
    intro acc h
    rw [List.foldl_cons]
    refine ih _ ?_
    split
    · exact h
    · rename_i hx
      simpa [List.nodup_append] using ⟨h, hx⟩

theorem uniqueKeys_nodup {α : Type} [DecidableEq α] (l : List α) :
    (uniqueKeys l).Nodup :=
  uniqueKeys_foldl_nodup l [] List.nodup_nil

theorem uniqueKeys_foldl_of_nodup {α : Type} [DecidableEq α] (l : List α) :
    ∀ acc : List α, l.Nodup → (∀ x ∈ l, x ∉ acc) →
      l.foldl (fun acc r => if r ∈ acc then acc else acc ++ [r]) acc = acc ++ l := by
  induction l with
  | nil => intro acc _ _; simp
  | cons x xs ih =>
    intro acc hnd hdisj
    rw [List.foldl_cons, if_neg (hdisj x (List.mem_cons_self x xs))]
    rw [ih (acc ++ [x]) (List.Nodup.of_cons hnd) ?_]
    · simp
    · intro y hy
      simp only [List.mem_append, List.mem_singleton]
      rintro (h | rfl)
      · exact hdisj y (List.mem_cons_of_mem x hy) h
      · exact (List.nodup_cons.mp hnd).1 hy

theorem uniqueKeys_of_nodup {α : Type} [DecidableEq α] (l : List α)
    (h : l.Nodup) : uniqueKeys l = l := by
  unfold uniqueKeys
  simpa using uniqueKeys_foldl_of_nodup l [] h (by simp)

theorem nodup_of_uniqueKeys_length {α : Type} [DecidableEq α] (l : List α)
    (h : (uniqueKeys l).length = l.length) : l.Nodup := by
  have he : uniqueKeys l = l := (uniqueKeys_sublist l).eq_of_length h
  rw [← he]
  exact uniqueKeys_nodup l

theorem sortDescInt_perm (l : List Int) : (sortDescInt l).Perm l :=
  sortDescBy_perm _ l

theorem sortDescInt_pairwise (l : List Int) :
    (sortDescInt l).Pairwise (fun a b => b ≤ a) := by
  have h := sortDescBy_pairwise (fun a b : Int => decide (b ≤ a))
    (fun a b => by
      rcases Int.le_total b a with h | h
      · exact Or.inl (by simpa using h)
      · exact Or.inr (by simpa using h))
    (fun a b c hab hbc => by
      simp only [decide_eq_true_eq] at *
      omega) l
  exact h.imp (fun hab => by simpa using hab)

theorem exists_five (l : List Int) (h : l.length = 5) :
    ∃ a b c d e, l = [a, b, c, d, e] := by
  match l, h with
  | [a, b, c, d, e], _ => exact ⟨a, b, c, d, e, rfl⟩

theorem sorted_gt_ext (u : List Int) :
    ∀ v : List Int, u.Pairwise (fun a b => b < a) →
      v.Pairwise (fun a b => b < a) → (∀ x, x ∈ u ↔ x ∈ v) → u = v := by
  induction u with
  | nil =>
    intro v _ _ hm
    cases v with
    | nil => rfl
    | cons y ys => exact absurd ((hm y).mpr (List.mem_cons_self y ys)) (by simp)
  | cons x xs ih =>
    intro v hu hv hm
    cases v with
    | nil => exact absurd ((hm x).mp (List.mem_cons_self x xs)) (by simp)
    | cons y ys =>
      rcases List.pairwise_cons.mp hu with ⟨hxall, hxs⟩
      rcases List.pairwise_cons.mp hv with ⟨hyall, hys⟩
      have hxy : x = y := by
        have hx : x ∈ y :: ys := (hm x).mp (List.mem_cons_self x xs)
        have hy : y ∈ x :: xs := (hm y).mpr (List.mem_cons_self y ys)
        rcases List.mem_cons.mp hx with h1 | h1
        · exact h1
        · rcases List.mem_cons.mp hy with h2 | h2
          · exact h2.symm
          · have := hyall x h1
            have := hxall y h2
            omega
      subst hxy
      have htl : xs = ys := by
        refine ih ys hxs hys ?_
        intro z
        constructor
        · intro hz
          have hzv : z ∈ x :: ys := (hm z).mp (List.mem_cons_of_mem x hz)
          rcases List.mem_cons.mp hzv with rfl | h2
          · exact absurd (hxall z hz) (by omega)
          · exact h2
        · intro hz
          have hzu : z ∈ x :: xs := (hm z).mpr (List.mem_cons_of_mem x hz)
          rcases List.mem_cons.mp hzu with rfl | h2
          · exact absurd (hyall z hz) (by omega)
          · exact h2
      rw [htl]

/-- Claim C8: _check_straight recognizes exactly the 5-card rank lists
with five distinct ranks whose max minus min equals 4 (high card the
max) plus the wheel set {14,5,4,3,2} with high card 5; and for hole
cards 7c 9d on community 5c 4d 3s 2h As, get_best_hand returns
category 5 (STRAIGHT) with tiebreakers [5]. -/
theorem C8_wheel_straight :
    (∀ ranks : List Int, ranks.length = 5 →
      (((check_straight ranks).1 = true ↔
         (ranks.Nodup ∧
          ((∃ mx ∈ ranks, ∃ mn ∈ ranks, (∀ r ∈ ranks, r ≤ mx) ∧
             (∀ r ∈ ranks, mn ≤ r) ∧ mx - mn = 4) ∨
           (∀ r : Int, r ∈ ranks ↔ r ∈ ([14, 5, 4, 3, 2] : List Int))))) ∧
       (∀ mx ∈ ranks, (∀ r ∈ ranks, r ≤ mx) →
         ¬ (∀ r : Int, r ∈ ranks ↔ r ∈ ([14, 5, 4, 3, 2] : List Int)) →
         (check_straight ranks).1 = true → (check_straight ranks).2 = mx) ∧
       ((∀ r : Int, r ∈ ranks ↔ r ∈ ([14, 5, 4, 3, 2] : List Int)) →
         (check_straight ranks).2 = 5))) ∧
    (get_best_hand [⟨7, .c⟩, ⟨9, .d⟩]
        [⟨5, .c⟩, ⟨4, .d⟩, ⟨3, .s⟩, ⟨2, .h⟩, ⟨14, .s⟩]).2.1 = 5 ∧
    (get_best_hand [⟨7, .c⟩, ⟨9, .d⟩]
        [⟨5, .c⟩, ⟨4, .d⟩, ⟨3, .s⟩, ⟨2, .h⟩, ⟨14, .s⟩]).2.2.1 = [5] := by
  refine ⟨?_, by decide, by decide⟩
  intro ranks h5
  have hperm : (sortDescInt (uniqueKeys ranks)).Perm (uniqueKeys ranks) :=
    sortDescInt_perm _
  have hmem : ∀ x : Int, x ∈ sortDescInt (uniqueKeys ranks) ↔ x ∈ ranks := by
    intro x; rw [hperm.mem_iff, uniqueKeys_mem]
  have hnodup : (sortDescInt (uniqueKeys ranks)).Nodup :=
    hperm.nodup_iff.mpr (uniqueKeys_nodup _)
  have hlen : (sortDescInt (uniqueKeys ranks)).length = (uniqueKeys ranks).length :=
    hperm.length_eq
  have hgt : (sortDescInt (uniqueKeys ranks)).Pairwise (fun a b => b < a) :=
    ((sortDescInt_pairwise _).and hnodup).imp (fun h => by omega)
  by_cases hu5 : (sortDescInt (uniqueKeys ranks)).length = 5
  · have hndr : ranks.Nodup := by
      refine nodup_of_uniqueKeys_length ranks ?_
      omega
    obtain ⟨a, b, c, d, e, hu⟩ := exists_five _ hu5
    rw [hu] at hmem hgt
    have hgt5 := hgt
    simp only [List.pairwise_cons, List.mem_cons, List.not_mem_nil,
      List.mem_singleton, or_false, forall_eq_or_imp,
      forall_eq] at hgt
    have hcs : check_straight ranks =
        (if a - e = 4 then ((true : Bool), a)
         else if ([a, b, c, d, e] : List Int) = [14, 5, 4, 3, 2] then (true, 5)
         else (false, 0)) := by
      simp only [check_straight]
      rw [hu]
      rw [if_neg (by simp)]
      simp only [List.headD, List.getD, List.get?]
      rfl
    refine ⟨?_, ?_, ?_⟩
    · rw [hcs]
      constructor
      · intro htrue
        refine ⟨hndr, ?_⟩
        by_cases h4 : a - e = 4
        · left
          refine ⟨a, (hmem a).mp (by simp), e, (hmem e).mp (by simp), ?_, ?_, h4⟩
          · intro r hr
            have hr5 := (hmem r).mpr hr
            simp only [List.mem_cons, List.not_mem_nil, or_false] at hr5
            rcases hr5 with rfl | rfl | rfl | rfl | rfl <;> omega
          · intro r hr
            have hr5 := (hmem r).mpr hr
            simp only [List.mem_cons, List.not_mem_nil, or_false] at hr5
            rcases hr5 with rfl | rfl | rfl | rfl | rfl <;> omega
        · right
          rw [if_neg h4] at htrue
          by_cases hw : ([a, b, c, d, e] : List Int) = [14, 5, 4, 3, 2]
          · intro r
            rw [← hmem r, hw]
          · rw [if_neg hw] at htrue
            cases htrue
      · rintro ⟨hnd, hdisj | hwheel⟩
        · obtain ⟨mx, hmx, mn, hmn, hmaxall, hminall, h4⟩ := hdisj
          have hmxa : mx = a := by
            have h1 : mx ∈ ([a, b, c, d, e] : List Int) := (hmem mx).mpr hmx
            have h3 := hmaxall a ((hmem a).mp (by simp))
            simp only [List.mem_cons, List.not_mem_nil, or_false] at h1
            rcases h1 with rfl | rfl | rfl | rfl | rfl <;> omega
          have hmne : mn = e := by
            have h1 : mn ∈ ([a, b, c, d, e] : List Int) := (hmem mn).mpr hmn
            have h3 := hminall e ((hmem e).mp (by simp))
            simp only [List.mem_cons, List.not_mem_nil, or_false] at h1
            rcases h1 with rfl | rfl | rfl | rfl | rfl <;> omega
          rw [if_pos (by omega)]
        · have hweq : ([a, b, c, d, e] : List Int) = [14, 5, 4, 3, 2] := by
            refine sorted_gt_ext _ _ hgt5 (by decide) ?_
            intro x
            rw [hmem x, hwheel x]
          have hcomp : a = 14 ∧ b = 5 ∧ c = 4 ∧ d = 3 ∧ e = 2 := by
            simpa using hweq
          rw [if_neg (by omega), if_pos hweq]
    · intro mx hmx hmaxall hnotwheel htrue
      rw [hcs] at htrue ⊢
      by_cases h4 : a - e = 4
      · rw [if_pos h4]
        have h1 : mx ∈ ([a, b, c, d, e] : List Int) := (hmem mx).mpr hmx
        have h3 := hmaxall a ((hmem a).mp (by simp))
        simp only [List.mem_cons, List.not_mem_nil, or_false] at h1
        show a = mx
        rcases h1 with rfl | rfl | rfl | rfl | rfl <;> omega
      · rw [if_neg h4] at htrue
        by_cases hw : ([a, b, c, d, e] : List Int) = [14, 5, 4, 3, 2]
        · exfalso
          refine hnotwheel ?_
          intro r
          rw [← hmem r, hw]
        · rw [if_neg hw] at htrue
          cases htrue
    · intro hwheel
      have hweq : ([a, b, c, d, e] : List Int) = [14, 5, 4, 3, 2] := by
        refine sorted_gt_ext _ _ hgt5 (by decide) ?_
        intro x
        rw [hmem x, hwheel x]
      have hcomp : a = 14 ∧ b = 5 ∧ c = 4 ∧ d = 3 ∧ e = 2 := by
        simpa using hweq
      rw [hcs, if_neg (by omega), if_pos hweq]
  · have hnotnodup : ¬ ranks.Nodup := by
      intro hnd
      have h' : (uniqueKeys ranks).length = ranks.length := by
        rw [uniqueKeys_of_nodup ranks hnd]
      omega
    have hcs : check_straight ranks = (false, 0) := by
      simp only [check_straight]
      rw [if_pos hu5]
    have hnotwheel : ¬ (∀ r : Int, r ∈ ranks ↔ r ∈ ([14, 5, 4, 3, 2] : List Int)) := by
      intro hwheel
      have hsub : ([14, 5, 4, 3, 2] : List Int).Subperm (uniqueKeys ranks) := by
        refine List.subperm_of_subset (by decide) ?_
        intro x hx
        exact (uniqueKeys_mem ranks x).mpr ((hwheel x).mpr hx)
      have h1 : 5 ≤ (uniqueKeys ranks).length := by
        have := hsub.length_le
        simpa using this
      have h2 : (uniqueKeys ranks).length ≤ 5 := by
        have := (uniqueKeys_sublist ranks).length_le
        omega
      omega
    refine ⟨?_, ?_, ?_⟩
    · rw [hcs]
      constructor
      · intro h; cases h
      · rintro ⟨hnd, _⟩
        exact absurd hnd hnotnodup
    · intro mx _ _ _ htrue
      rw [hcs] at htrue
      cases htrue
    · intro hwheel
      exact absurd hwheel hnotwheel

/-- Witness for C8: the characterization applied at the wheel list
[14, 5, 4, 3, 2]. -/
theorem C8_witness :
    ([14, 5, 4, 3, 2] : List Int).length = 5 ∧
    (((check_straight [14, 5, 4, 3, 2]).1 = true ↔
       (([14, 5, 4, 3, 2] : List Int).Nodup ∧
        ((∃ mx ∈ ([14, 5, 4, 3, 2] : List Int), ∃ mn ∈ ([14, 5, 4, 3, 2] : List Int),
           (∀ r ∈ ([14, 5, 4, 3, 2] : List Int), r ≤ mx) ∧
           (∀ r ∈ ([14, 5, 4, 3, 2] : List Int), mn ≤ r) ∧ mx - mn = 4) ∨
         (∀ r : Int, r ∈ ([14, 5, 4, 3, 2] : List Int) ↔
           r ∈ ([14, 5, 4, 3, 2] : List Int))))) ∧
     (∀ mx ∈ ([14, 5, 4, 3, 2] : List Int),
       (∀ r ∈ ([14, 5, 4, 3, 2] : List Int), r ≤ mx) →
       ¬ (∀ r : Int, r ∈ ([14, 5, 4, 3, 2] : List Int) ↔
            r ∈ ([14, 5, 4, 3, 2] : List Int)) →
       (check_straight [14, 5, 4, 3, 2]).1 = true →
       (check_straight [14, 5, 4, 3, 2]).2 = mx) ∧
     ((∀ r : Int, r ∈ ([14, 5, 4, 3, 2] : List Int) ↔
         r ∈ ([14, 5, 4, 3, 2] : List Int)) →
       (check_straight [14, 5, 4, 3, 2]).2 = 5)) :=
  ⟨by decide, C8_wheel_straight.1 [14, 5, 4, 3, 2] (by decide)⟩

theorem updatePlayer_comp (gs : GameState) (pid : String) (f g : Player → Player)
    (hf : ∀ p, (f p).player_id = p.player_id) :
    updatePlayer (updatePlayer gs pid f) pid g =
      updatePlayer gs pid (fun p => g (f p)) := by
  unfold updatePlayer
  simp only [List.map_map]
  congr 1
  apply List.map_congr_left
  intro p _
  by_cases hp : p.player_id = pid
  · simp [hp, Function.comp, hf]
  · simp [hp, Function.comp]

theorem map_field_of_update {β : Type} (l : List Player) (pid : String)
    (f : Player → Player) (proj : Player → β)
    (h : ∀ p, proj (f p) = proj p) :
    (l.map (fun p => if p.player_id = pid then f p else p)).map proj =
      l.map proj := by
  rw [List.map_map]
  apply List.map_congr_left
  intro p _
  by_cases hp : p.player_id = pid
  · simp [hp, Function.comp, h]
  · simp [hp, Function.comp]

theorem setNextPlayer_eq (g : GameState) :
    ∃ c, setNextPlayer g = { g with current_player_id := c } := by
  unfold setNextPlayer
  by_cases h : g.get_players_to_act.isEmpty
  · exact ⟨none, by rw [if_pos h]⟩
  · refine ⟨_, by rw [if_neg h]⟩

/-- Claim C10 (amended): a valid FOLD or CHECK after which the betting
round is still incomplete changes no chip stack, no player's
current_bet or total_bet, no pot, and none of the table fields
current_bet, min_raise, last_raiser_id, phase, betting_round,
community, dealer, blinds, hand number or winners; only the acting
player's status (FOLD), last_action and has_acted flag, the action
history and the current player change, and the deck is untouched. -/
theorem C10_fold_check_frame (gs : GameState) (deck : List Card)
    (pid : String) (a : PlayerAction)
    (hok : (validate_action gs pid a).ok = true)
    (hfc : a.action_type = .fold ∨ a.action_type = .check)
    (hinc : is_betting_round_complete
        (applyValidAction gs pid a.action_type
          ((validate_action gs pid a).amount.getD 0)) = false) :
    (processAction gs deck pid a).1.players.map (·.chips) =
        gs.players.map (·.chips) ∧
    (processAction gs deck pid a).1.players.map (·.current_bet) =
        gs.players.map (·.current_bet) ∧
    (processAction gs deck pid a).1.players.map (·.total_bet) =
        gs.players.map (·.total_bet) ∧
    (processAction gs deck pid a).1.pots = gs.pots ∧
    (processAction gs deck pid a).1.current_bet = gs.current_bet ∧
    (processAction gs deck pid a).1.min_raise = gs.min_raise ∧
    (processAction gs deck pid a).1.last_raiser_id = gs.last_raiser_id ∧
    (processAction gs deck pid a).1.phase = gs.phase ∧
    (processAction gs deck pid a).1.betting_round = gs.betting_round ∧
    (processAction gs deck pid a).1.community_cards = gs.community_cards ∧
    (processAction gs deck pid a).1.dealer_position = gs.dealer_position ∧
    (processAction gs deck pid a).1.small_blind = gs.small_blind ∧
    (processAction gs deck pid a).1.big_blind = gs.big_blind ∧
    (processAction gs deck pid a).1.hand_number = gs.hand_number ∧
    (processAction gs deck pid a).1.hand_winners = gs.hand_winners ∧
    (processAction gs deck pid a).1.players = gs.players.map (fun p =>
      if p.player_id = pid then
        { p with
          status := (if a.action_type = .fold then .folded else p.status),
          last_action := some (if a.action_type = .fold then "fold" else "check"),
          has_acted := true }
      else p) ∧
    (∃ rec, (processAction gs deck pid a).1.action_history =
        gs.action_history ++ [rec]) ∧
    (processAction gs deck pid a).2.1 = deck := by
  have hres : processAction gs deck pid a =
      (setNextPlayer (applyValidAction gs pid a.action_type
          ((validate_action gs pid a).amount.getD 0)), deck,
        ⟨pid, a.action_type, (validate_action gs pid a).amount.getD 0,
          true, none⟩) := by
    simp only [processAction, hok, if_true, checkBettingRoundComplete, hinc]
    simp
  rw [hres]
  set actual := (validate_action gs pid a).amount.getD 0 with hact
  obtain ⟨c, hsnp⟩ := setNextPlayer_eq
    (applyValidAction gs pid a.action_type actual)
  rw [hsnp]
  have hplayers : (applyValidAction gs pid a.action_type actual).players =
      gs.players.map (fun p =>
        if p.player_id = pid then
          { p with
            status := (if a.action_type = .fold then .folded else p.status),
            last_action := some (if a.action_type = .fold then "fold" else "check"),
            has_acted := true }
        else p) := by
    rcases hfc with hf | hf
    · rw [hf]
      simp only [applyValidAction, addActionHistory]
      rw [updatePlayer_comp]
      · rfl
      · intro p
        rfl
    · rw [hf]
      simp only [applyValidAction, addActionHistory]
      rw [updatePlayer_comp]
      · rfl
      · intro p
        rfl
  have hh : ∃ rec, (applyValidAction gs pid a.action_type actual).action_history =
      gs.action_history ++ [rec] := by
    rcases hfc with hf | hf
    · rw [hf]
      exact ⟨_, rfl⟩
    · rw [hf]
      exact ⟨_, rfl⟩
  have hpots : (applyValidAction gs pid a.action_type actual).pots = gs.pots := by
    rcases hfc with hf | hf <;> rw [hf] <;> rfl
  have hcb : (applyValidAction gs pid a.action_type actual).current_bet =
      gs.current_bet := by
    rcases hfc with hf | hf <;> rw [hf] <;> rfl
  have hmr : (applyValidAction gs pid a.action_type actual).min_raise =
      gs.min_raise := by
    rcases hfc with hf | hf <;> rw [hf] <;> rfl
  have hlr : (applyValidAction gs pid a.action_type actual).last_raiser_id =
      gs.last_raiser_id := by
    rcases hfc with hf | hf <;> rw [hf] <;> rfl
  have hph : (applyValidAction gs pid a.action_type actual).phase = gs.phase := by
    rcases hfc with hf | hf <;> rw [hf] <;> rfl
  have hbr : (applyValidAction gs pid a.action_type actual).betting_round =
      gs.betting_round := by
    rcases hfc with hf | hf <;> rw [hf] <;> rfl
  have hcc : (applyValidAction gs pid a.action_type actual).community_cards =
      gs.community_cards := by
    rcases hfc with hf | hf <;> rw [hf] <;> rfl
  have hdp : (applyValidAction gs pid a.action_type actual).dealer_position =
      gs.dealer_position := by
    rcases hfc with hf | hf <;> rw [hf] <;> rfl
  have hsb : (applyValidAction gs pid a.action_type actual).small_blind =
      gs.small_blind := by
    rcases hfc with hf | hf <;> rw [hf] <;> rfl
  have hbb : (applyValidAction gs pid a.action_type actual).big_blind =
      gs.big_blind := by
    rcases hfc with hf | hf <;> rw [hf] <;> rfl
  have hhn : (applyValidAction gs pid a.action_type actual).hand_number =
      gs.hand_number := by
    rcases hfc with hf | hf <;> rw [hf] <;> rfl
  have hhw : (applyValidAction gs pid a.action_type actual).hand_winners =
      gs.hand_winners := by
    rcases hfc with hf | hf <;> rw [hf] <;> rfl
  refine ⟨?_, ?_, ?_, hpots, hcb, hmr, hlr, hph, hbr, hcc, hdp, hsb, hbb,
    hhn, hhw, hplayers, hh, rfl⟩
  · rw [show (({ (applyValidAction gs pid a.action_type actual) with
        current_player_id := c } : GameState).players =
        (applyValidAction gs pid a.action_type actual).players) from rfl,
      hplayers]
    apply map_field_of_update
    intro p
    split <;> rfl
  · rw [show (({ (applyValidAction gs pid a.action_type actual) with
        current_player_id := c } : GameState).players =
        (applyValidAction gs pid a.action_type actual).players) from rfl,
      hplayers]
    apply map_field_of_update
    intro p
    split <;> rfl
  · rw [show (({ (applyValidAction gs pid a.action_type actual) with
        current_player_id := c } : GameState).players =
        (applyValidAction gs pid a.action_type actual).players) from rfl,
      hplayers]
    apply map_field_of_update
    intro p
    split <;> rfl

/-- Counterexample for C10 as stated: at gsC10 a valid FOLD by A
completes the round, ends the hand, moves the 100-chip pot into the
chips of B and zeroes the pot, so chips and pots do change. -/
theorem C10_counterexample :
    (validate_action gsC10 "A" ⟨.fold, none⟩).ok = true ∧
    (processAction gsC10 [] "A" ⟨.fold, none⟩).1.players.map (·.chips) =
      [1000, 600] ∧
    gsC10.players.map (·.chips) = [1000, 500] ∧
    (processAction gsC10 [] "A" ⟨.fold, none⟩).1.pots.map (·.amount) = [0] ∧
    gsC10.pots.map (·.amount) = [100] :=
  ⟨by decide, by decide, by decide, by decide, by decide⟩

/-- Witness for C10: a check by A at gsW10 leaves the betting round
incomplete, and the frame property holds there. -/
theorem C10_witness :
    ((validate_action gsW10 "A" ⟨.check, none⟩).ok = true ∧
     ((⟨.check, none⟩ : PlayerAction).action_type = .fold ∨
      (⟨.check, none⟩ : PlayerAction).action_type = .check) ∧
     is_betting_round_complete
       (applyValidAction gsW10 "A" (⟨.check, none⟩ : PlayerAction).action_type
         ((validate_action gsW10 "A" ⟨.check, none⟩).amount.getD 0)) = false) ∧
    ((processAction gsW10 [] "A" ⟨.check, none⟩).1.players.map (·.chips) =
        gsW10.players.map (·.chips) ∧
     (processAction gsW10 [] "A" ⟨.check, none⟩).1.players.map (·.current_bet) =
        gsW10.players.map (·.current_bet) ∧
     (processAction gsW10 [] "A" ⟨.check, none⟩).1.players.map (·.total_bet) =
        gsW10.players.map (·.total_bet) ∧
     (processAction gsW10 [] "A" ⟨.check, none⟩).1.pots = gsW10.pots ∧
     (processAction gsW10 [] "A" ⟨.check, none⟩).1.current_bet = gsW10.current_bet ∧
     (processAction gsW10 [] "A" ⟨.check, none⟩).1.min_raise = gsW10.min_raise ∧
     (processAction gsW10 [] "A" ⟨.check, none⟩).1.last_raiser_id =
        gsW10.last_raiser_id ∧
     (processAction gsW10 [] "A" ⟨.check, none⟩).1.phase = gsW10.phase ∧
     (processAction gsW10 [] "A" ⟨.check, none⟩).1.betting_round =
        gsW10.betting_round ∧
     (processAction gsW10 [] "A" ⟨.check, none⟩).1.community_cards =
        gsW10.community_cards ∧
     (processAction gsW10 [] "A" ⟨.check, none⟩).1.dealer_position =
        gsW10.dealer_position ∧
     (processAction gsW10 [] "A" ⟨.check, none⟩).1.small_blind = gsW10.small_blind ∧
     (processAction gsW10 [] "A" ⟨.check, none⟩).1.big_blind = gsW10.big_blind ∧
     (processAction gsW10 [] "A" ⟨.check, none⟩).1.hand_number = gsW10.hand_number ∧
     (processAction gsW10 [] "A" ⟨.check, none⟩).1.hand_winners =
        gsW10.hand_winners ∧
     (processAction gsW10 [] "A" ⟨.check, none⟩).1.players =
        gsW10.players.map (fun p =>
          if p.player_id = "A" then
            { p with
              status := (if (⟨.check, none⟩ : PlayerAction).action_type = .fold
                then .folded else p.status),
              last_action := some (if (⟨.check, none⟩ : PlayerAction).action_type = .fold
                then "fold" else "check"),
              has_acted := true }
          else p) ∧
     (∃ rec, (processAction gsW10 [] "A" ⟨.check, none⟩).1.action_history =
        gsW10.action_history ++ [rec]) ∧
     (processAction gsW10 [] "A" ⟨.check, none⟩).2.1 = []) :=
  ⟨⟨by decide, by decide, by decide⟩,
   C10_fold_check_frame gsW10 [] "A" ⟨.check, none⟩ (by decide) (by decide)
     (by decide)⟩

theorem map_ite_eq_self_of_not_mem (l : List Player) (pid : String)
    (f : Player → Player) (h : ∀ p ∈ l, p.player_id ≠ pid) :
    l.map (fun p => if p.player_id = pid then f p else p) = l := by
  induction l with
  | nil => rfl
  | cons q qs ih =>
    rw [List.map_cons, if_neg (h q (List.mem_cons_self q qs)),
      ih (fun p hp => h p (List.mem_cons_of_mem q hp))]

theorem chipSum_update_add (l : List Player) (pid : String) (amt : Int) :
    ∀ (hnd : (l.map (·.player_id)).Nodup) (hmem : pid ∈ l.map (·.player_id)),
    chipSum (l.map (fun p => if p.player_id = pid then
      { p with chips := p.chips + amt } else p)) = chipSum l + amt := by
  induction l with
  | nil => intro _ hmem; cases hmem
  | cons q qs ih =>
    intro hnd hmem
    rw [List.map_cons] at hnd
    have hnd2 := List.nodup_cons.mp hnd
    by_cases hq : q.player_id = pid
    · rw [List.map_cons, if_pos hq]
      have hrest : qs.map (fun p => if p.player_id = pid then
          { p with chips := p.chips + amt } else p) = qs := by
        apply map_ite_eq_self_of_not_mem
        intro p hp hpeq
        exact hnd2.1 (by rw [hq, ← hpeq]; exact List.mem_map_of_mem _ hp)
      rw [hrest]
      show (q.chips + amt) + chipSum qs = (q.chips + chipSum qs) + amt
      ring
    · rw [List.map_cons, if_neg hq]
      have hmem2 : pid ∈ qs.map (·.player_id) := by
        rcases List.mem_cons.mp hmem with h | h
        · exact absurd h.symm hq
        · exact h
      show q.chips + chipSum (qs.map _) = (q.chips + chipSum qs) + amt
      rw [ih hnd2.2 hmem2]
      ring

theorem updatePlayer_map_player_id (gs : GameState) (pid : String)
    (f : Player → Player) (hf : ∀ p, (f p).player_id = p.player_id) :
    (updatePlayer gs pid f).players.map (·.player_id) =
      gs.players.map (·.player_id) := by
  unfold updatePlayer
  exact map_field_of_update gs.players pid f _ hf

theorem awards_foldl_chipSum (recs : List WinRec) :
    ∀ (gs : GameState),
    (gs.players.map (·.player_id)).Nodup →
    (∀ r ∈ recs, r.player_id ∈ gs.players.map (·.player_id)) →
    chipSum (recs.foldl (fun g r => updatePlayer g r.player_id
        (fun p => { p with chips := p.chips + r.amount })) gs).players =
      chipSum gs.players + (recs.map (·.amount)).sum := by
  induction recs with
  | nil => intro gs _ _; simp
  | cons r rest ih =>
    intro gs hnd hmem
    rw [List.foldl_cons]
    have hids : (updatePlayer gs r.player_id
        (fun p => { p with chips := p.chips + r.amount })).players.map (·.player_id) =
        gs.players.map (·.player_id) :=
      updatePlayer_map_player_id gs r.player_id _ (fun p => rfl)
    rw [ih _ (by rw [hids]; exact hnd)
      (fun x hx => by rw [hids]; exact hmem x (List.mem_cons_of_mem r hx))]
    have hstep : chipSum (updatePlayer gs r.player_id
        (fun p => { p with chips := p.chips + r.amount })).players =
        chipSum gs.players + r.amount := by
      unfold updatePlayer
      exact chipSum_update_add gs.players r.player_id r.amount hnd
        (hmem r (List.mem_cons_self r rest))
    rw [hstep]
    rw [List.map_cons, List.sum_cons]
    ring

theorem awards_foldl_players (recs : List WinRec) :
    ∀ (gs : GameState), (recs.map (·.player_id)).Nodup →
    (recs.foldl (fun g r => updatePlayer g r.player_id
        (fun p => { p with chips := p.chips + r.amount })) gs).players =
      gs.players.map (fun p =>
        match recs.find? (fun x => x.player_id == p.player_id) with
        | some r => { p with chips := p.chips + r.amount }
        | none => p) := by
  induction recs with
  | nil =>
    intro gs _
    simp [List.find?]
  | cons r rest ih =>
    intro gs hnd
    rw [List.map_cons] at hnd
    have hnd2 := List.nodup_cons.mp hnd
    rw [List.foldl_cons, ih _ hnd2.2]
    unfold updatePlayer
    rw [List.map_map]
    apply List.map_congr_left
    intro p _
    by_cases hp : p.player_id = r.player_id
    · have hfind : (r :: rest).find? (fun x => x.player_id == p.player_id) =
          some r := by
        apply List.find?_cons_of_pos
        simp [hp]
      rw [hfind]
      simp only [Function.comp, if_pos hp]
      have h2 : rest.find? (fun x => x.player_id ==
          ({ p with chips := p.chips + r.amount } : Player).player_id) = none := by
        rw [List.find?_eq_none]
        intro x hx
        simp only [beq_iff_eq]
        intro he
        exact hnd2.1 (by rw [← hp, ← he]; exact List.mem_map_of_mem _ hx)
      rw [h2]
    · have hfind : (r :: rest).find? (fun x => x.player_id == p.player_id) =
          rest.find? (fun x => x.player_id == p.player_id) := by
        apply List.find?_cons_of_neg
        simp
        intro he
        exact hp he.symm
      rw [hfind]
      simp only [Function.comp, if_neg hp]

theorem award_sum (share r : Int) :
    ∀ n : Nat,
      ((List.range n).map
          (fun i : Nat => share + if (i : Int) < r then (1 : Int) else 0)).sum
        = n * share + max 0 (min r n) := by
  intro n
  induction n with
  | zero => simp
  | succ n ih =>
    rw [List.range_succ, List.map_append, List.sum_append]
    simp only [List.map_cons, List.map_nil, List.sum_cons, List.sum_nil]
    by_cases h : (n : Int) < r
    · rw [if_pos h, ih]
      have hmul : ((n : Int) + 1) * share = (n : Int) * share + share := by ring
      push_cast
      rw [hmul]
      omega
    · rw [if_neg h, ih]
      have hmul : ((n : Int) + 1) * share = (n : Int) * share + share := by ring
      push_cast
      rw [hmul]
      omega

theorem determine_winners_spec (hands : List (String × List Card × List Card))
    (hne : hands ≠ []) :
    ∃ best rest, compare_hands hands = best :: rest ∧
      determine_winners hands =
        (best :: rest).filter (fun h => h.rank == best.rank &&
          h.tiebreakers == best.tiebreakers) ∧
      (compare_hands hands).Perm (hands.map (fun h =>
        let r := get_best_hand h.2.1 h.2.2
        ({ player_id := h.1, rank := r.2.1, tiebreakers := r.2.2.1,
           name := r.2.2.2, cards := r.1 } : HandResult))) ∧
      (∀ x ∈ compare_hands hands,
        keyGe (best.rank, best.tiebreakers) (x.rank, x.tiebreakers) = true) := by
  have hperm : (compare_hands hands).Perm (hands.map (fun h =>
      let r := get_best_hand h.2.1 h.2.2
      ({ player_id := h.1, rank := r.2.1, tiebreakers := r.2.2.1,
         name := r.2.2.2, cards := r.1 } : HandResult))) := by
    unfold compare_hands
    exact sortDescBy_perm _ _
  have hlen : (compare_hands hands).length = hands.length := by
    rw [hperm.length_eq, List.length_map]
  cases hsort : compare_hands hands with
  | nil =>
    exfalso
    rw [hsort] at hlen
    exact hne (List.length_eq_zero.mp hlen.symm)
  | cons best rest =>
    refine ⟨best, rest, rfl, ?_, hsort ▸ hperm, ?_⟩
    · unfold determine_winners
      rw [show compare_hands hands = best :: rest from hsort]
    · intro x hx
      have hge := sortDescBy_head_ge
        (fun a b : HandResult => keyGe (a.rank, a.tiebreakers) (b.rank, b.tiebreakers))
        (fun a b => keyGe_total _ _)
        (fun a b c => keyGe_trans _ _ _)
        (fun a => keyGe_refl _)
        (hands.map (fun h =>
          let r := get_best_hand h.2.1 h.2.2
          ({ player_id := h.1, rank := r.2.1, tiebreakers := r.2.2.1,
             name := r.2.2.2, cards := r.1 } : HandResult)))
        (h := best) (t := rest) ?_ x ?_
      · exact hge
      · rw [← hsort]
        unfold compare_hands
        rfl
      · show x ∈ sortDescBy _ _
        rw [show sortDescBy (fun a b : HandResult =>
            keyGe (a.rank, a.tiebreakers) (b.rank, b.tiebreakers))
            (hands.map (fun h =>
              let r := get_best_hand h.2.1 h.2.2
              ({ player_id := h.1, rank := r.2.1, tiebreakers := r.2.2.1,
                 name := r.2.2.2, cards := r.1 } : HandResult))) =
            compare_hands hands from rfl, hsort]
        exact hx

theorem determine_winners_ne_nil (hands : List (String × List Card × List Card))
    (hne : hands ≠ []) : determine_winners hands ≠ [] := by
  obtain ⟨best, rest, hsort, hdw, _, _⟩ := determine_winners_spec hands hne
  rw [hdw]
  intro hcontra
  have hmem : best ∈ (best :: rest).filter (fun h => h.rank == best.rank &&
      h.tiebreakers == best.tiebreakers) :=
    List.mem_filter.mpr ⟨List.mem_cons_self _ _, by simp⟩
  rw [hcontra] at hmem
  cases hmem

theorem winners_pid_sub (hands : List (String × List Card × List Card)) :
    ∀ w ∈ determine_winners hands, w.player_id ∈ hands.map (·.1) := by
  intro w hw
  by_cases hne : hands = []
  · rw [hne] at hw
    simp [determine_winners, compare_hands, sortDescBy] at hw
  · obtain ⟨best, rest, hsort, hdw, hperm, _⟩ := determine_winners_spec hands hne
    rw [hdw] at hw
    have h1 : w ∈ best :: rest := (List.mem_filter.mp hw).1
    rw [← hsort] at h1
    have h2 := hperm.mem_iff.mp h1
    obtain ⟨h, hh, hwh⟩ := List.mem_map.mp h2
    rw [← hwh]
    exact List.mem_map_of_mem _ hh

theorem awards_foldl_pots (recs : List WinRec) :
    ∀ gs : GameState,
      (recs.foldl (fun g r => updatePlayer g r.player_id
        (fun p => { p with chips := p.chips + r.amount })) gs).pots = gs.pots := by
  induction recs with
  | nil => intro gs; rfl
  | cons r rest ih =>
    intro gs
    rw [List.foldl_cons, ih]
    rfl

theorem evaluateShowdown_chipSum (gs : GameState) (act : List Player)
    (hne : act ≠ [])
    (hnd : (gs.players.map (·.player_id)).Nodup)
    (hsub : ∀ pid ∈ act.map (·.player_id), pid ∈ gs.players.map (·.player_id)) :
    chipSum (evaluateShowdown gs act).players =
      chipSum gs.players + gs.get_total_pot ∧
    (evaluateShowdown gs act).pots = gs.pots := by
  have hhne : act.map (fun p => (p.player_id, p.hole_cards, gs.community_cards)) ≠ [] := by
    intro h
    exact hne (List.map_eq_nil.mp h)
  have hwne := determine_winners_ne_nil _ hhne
  simp only [evaluateShowdown]
  cases hw : determine_winners
      (act.map (fun p => (p.player_id, p.hole_cards, gs.community_cards))) with
  | nil => exact absurd hw hwne
  | cons w ws =>
    simp only [List.isEmpty_cons, Bool.false_eq_true, if_false]
    set winners : List HandResult := w :: ws with hwinners
    set P := gs.get_total_pot with hP
    set W := winners.length with hW
    set share := P.ediv (W : Int) with hshare
    set rem := P.emod (W : Int) with hrem
    set recs := winners.enum.map (fun iw =>
      ({ player_id := iw.2.player_id,
         username := ((findPlayer gs iw.2.player_id).getD default).username,
         amount := share + (if (iw.1 : Int) < rem then 1 else 0),
         hand := iw.2.name } : WinRec)) with hrecs
    have hpidmap : recs.map (·.player_id) = winners.map (·.player_id) := by
      rw [hrecs, List.map_map]
      have hc : ((fun r : WinRec => r.player_id) ∘ (fun iw : Nat × HandResult =>
          ({ player_id := iw.2.player_id,
             username := ((findPlayer gs iw.2.player_id).getD default).username,
             amount := share + (if (iw.1 : Int) < rem then 1 else 0),
             hand := iw.2.name } : WinRec))) =
          ((fun h : HandResult => h.player_id) ∘ Prod.snd) := rfl
      rw [hc, ← List.map_map, List.enum_eq_enumFrom, List.enumFrom_map_snd]
    have hamtmap : recs.map (·.amount) =
        (List.range W).map (fun i : Nat =>
          share + if (i : Int) < rem then (1 : Int) else 0) := by
      rw [hrecs, List.map_map]
      have hc : ((fun r : WinRec => r.amount) ∘ (fun iw : Nat × HandResult =>
          ({ player_id := iw.2.player_id,
             username := ((findPlayer gs iw.2.player_id).getD default).username,
             amount := share + (if (iw.1 : Int) < rem then 1 else 0),
             hand := iw.2.name } : WinRec))) =
          ((fun i : Nat => share + if (i : Int) < rem then (1 : Int) else 0) ∘
            Prod.fst) := rfl
      rw [hc, ← List.map_map, List.enum_eq_enumFrom, List.enumFrom_map_fst,
        ← hW, ← List.range_eq_range']
    have h0 : (0 : Int) < (W : Int) := by
      rw [hW, hwinners]
      simp
    have hsum : (recs.map (·.amount)).sum = P := by
      rw [hamtmap, award_sum]
      have h1 : 0 ≤ rem := Int.emod_nonneg P (by omega)
      have h2 : rem < (W : Int) := Int.emod_lt_of_pos P h0
      have h3 : max 0 (min rem (W : Int)) = rem := by omega
      rw [h3, hshare, hrem]
      exact Int.ediv_add_emod P (W : Int)
    have hrsub : ∀ r ∈ recs, r.player_id ∈ gs.players.map (·.player_id) := by
      intro r hr
      have h1 : r.player_id ∈ recs.map (·.player_id) := List.mem_map_of_mem _ hr
      rw [hpidmap] at h1
      obtain ⟨w', hw', hww⟩ := List.mem_map.mp h1
      have h2 : w'.player_id ∈ (act.map (fun p =>
          (p.player_id, p.hole_cards, gs.community_cards))).map (·.1) := by
        apply winners_pid_sub
        rw [hw]
        exact hw'
      rw [List.map_map] at h2
      have hc : ((fun x : String × List Card × List Card => x.1) ∘
          (fun p : Player => (p.player_id, p.hole_cards, gs.community_cards))) =
          (fun p : Player => p.player_id) := rfl
      rw [hc] at h2
      rw [← hww]
      exact hsub w'.player_id h2
    have hmain := awards_foldl_chipSum recs gs hnd hrsub
    rw [hsum] at hmain
    exact ⟨hmain, awards_foldl_pots recs gs⟩

theorem winners_pid_nodup (hands : List (String × List Card × List Card))
    (hnd : (hands.map (·.1)).Nodup) :
    ((determine_winners hands).map (·.player_id)).Nodup := by
  by_cases hne : hands = []
  · rw [hne]
    simp [determine_winners, compare_hands, sortDescBy]
  · obtain ⟨best, rest, hsort, hdw, hperm, _⟩ := determine_winners_spec hands hne
    rw [hdw]
    have hsubl : ((best :: rest).filter (fun h => h.rank == best.rank &&
        h.tiebreakers == best.tiebreakers)).Sublist (best :: rest) :=
      List.filter_sublist _
    refine List.Nodup.sublist (hsubl.map (·.player_id)) ?_
    have hpm : ((best :: rest).map (·.player_id)).Perm
        ((hands.map (fun h =>
          let r := get_best_hand h.2.1 h.2.2
          ({ player_id := h.1, rank := r.2.1, tiebreakers := r.2.2.1,
             name := r.2.2.2, cards := r.1 } : HandResult))).map (·.player_id)) := by
      exact (hsort ▸ hperm).map _
    refine hpm.nodup_iff.mpr ?_
    rw [List.map_map]
    have hc : ((fun h : HandResult => h.player_id) ∘ (fun h : String × List Card × List Card =>
        let r := get_best_hand h.2.1 h.2.2
        ({ player_id := h.1, rank := r.2.1, tiebreakers := r.2.2.1,
           name := r.2.2.2, cards := r.1 } : HandResult))) =
        (fun h : String × List Card × List Card => h.1) := rfl
    rw [hc]
    exact hnd

theorem winners_mem_iff (hands : List (String × List Card × List Card))
    (hne : hands ≠ []) :
    ∃ best rest, compare_hands hands = best :: rest ∧
      (∀ x ∈ compare_hands hands,
        keyGe (best.rank, best.tiebreakers) (x.rank, x.tiebreakers) = true) ∧
      (∃ h ∈ hands, ((get_best_hand h.2.1 h.2.2).2.1,
          (get_best_hand h.2.1 h.2.2).2.2.1) = (best.rank, best.tiebreakers)) ∧
      (∀ pid : String, pid ∈ (determine_winners hands).map (·.player_id) ↔
        ∃ h ∈ hands, h.1 = pid ∧
          ((get_best_hand h.2.1 h.2.2).2.1, (get_best_hand h.2.1 h.2.2).2.2.1) =
            (best.rank, best.tiebreakers)) := by
  obtain ⟨best, rest, hsort, hdw, hperm, hge⟩ := determine_winners_spec hands hne
  have hpermS : (best :: rest).Perm (hands.map (fun h =>
      let r := get_best_hand h.2.1 h.2.2
      ({ player_id := h.1, rank := r.2.1, tiebreakers := r.2.2.1,
         name := r.2.2.2, cards := r.1 } : HandResult))) := hsort ▸ hperm
  refine ⟨best, rest, hsort, hge, ?_, ?_⟩
  · have hb : best ∈ hands.map (fun h =>
        let r := get_best_hand h.2.1 h.2.2
        ({ player_id := h.1, rank := r.2.1, tiebreakers := r.2.2.1,
           name := r.2.2.2, cards := r.1 } : HandResult)) :=
      hpermS.mem_iff.mp (List.mem_cons_self best rest)
    obtain ⟨h, hh, hbh⟩ := List.mem_map.mp hb
    refine ⟨h, hh, ?_⟩
    rw [← hbh]
  · intro pid
    rw [hdw]
    constructor
    · intro hp
      obtain ⟨x, hx, hxp⟩ := List.mem_map.mp hp
      have hx1 := List.mem_filter.mp hx
      have hx2 : x ∈ hands.map (fun h =>
          let r := get_best_hand h.2.1 h.2.2
          ({ player_id := h.1, rank := r.2.1, tiebreakers := r.2.2.1,
             name := r.2.2.2, cards := r.1 } : HandResult)) :=
        hpermS.mem_iff.mp hx1.1
      obtain ⟨h, hh, hxh⟩ := List.mem_map.mp hx2
      refine ⟨h, hh, ?_, ?_⟩
      · rw [← hxp, ← hxh]
      · have hpred := hx1.2
        rw [Bool.and_eq_true, beq_iff_eq, beq_iff_eq] at hpred
        rw [← hxh] at hpred
        simp only [] at hpred
        rw [Prod.mk.injEq]
        exact ⟨hpred.1, hpred.2⟩
    · rintro ⟨h, hh, hpid, hkey⟩
      apply List.mem_map.mpr
      refine ⟨(let r := get_best_hand h.2.1 h.2.2
        ({ player_id := h.1, rank := r.2.1, tiebreakers := r.2.2.1,
           name := r.2.2.2, cards := r.1 } : HandResult)), ?_, hpid⟩
      apply List.mem_filter.mpr
      constructor
      · exact hpermS.mem_iff.mpr (List.mem_map_of_mem _ hh)
      · rw [Prod.mk.injEq] at hkey
        rw [Bool.and_eq_true, beq_iff_eq, beq_iff_eq]
        exact ⟨hkey.1, hkey.2⟩

theorem evaluateShowdown_full (gs : GameState) (act : List Player)
    (hne : act ≠ [])
    (hnd : (gs.players.map (·.player_id)).Nodup)
    (hnda : ((act.map (fun p => (p.player_id, p.hole_cards, gs.community_cards))).map
      (·.1)).Nodup)
    (hsub : ∀ pid ∈ act.map (·.player_id), pid ∈ gs.players.map (·.player_id)) :
    ∀ winners, winners = determine_winners (act.map (fun p =>
        (p.player_id, p.hole_cards, gs.community_cards))) →
    ∀ P, P = gs.get_total_pot →
    0 < winners.length ∧
    (evaluateShowdown gs act).hand_winners.map (·.player_id) =
      winners.map (·.player_id) ∧
    (evaluateShowdown gs act).hand_winners.map (·.amount) =
      (List.range winners.length).map (fun i : Nat =>
        P.ediv (winners.length : Int) +
          if (i : Int) < P.emod (winners.length : Int) then (1 : Int) else 0) ∧
    ((evaluateShowdown gs act).hand_winners.map (·.amount)).sum = P ∧
    (evaluateShowdown gs act).players = gs.players.map (fun p =>
      match (evaluateShowdown gs act).hand_winners.find?
          (fun x => x.player_id == p.player_id) with
      | some r => { p with chips := p.chips + r.amount }
      | none => p) ∧
    (evaluateShowdown gs act).pots = gs.pots ∧
    chipSum (evaluateShowdown gs act).players = chipSum gs.players + P := by
  intro winners hweq P hPeq
  subst hweq
  subst hPeq
  have hhne : act.map (fun p => (p.player_id, p.hole_cards, gs.community_cards)) ≠ [] := by
    intro h
    exact hne (List.map_eq_nil.mp h)
  have hwne := determine_winners_ne_nil _ hhne
  have hwnodup := winners_pid_nodup _ hnda
  simp only [evaluateShowdown]
  cases hw : determine_winners
      (act.map (fun p => (p.player_id, p.hole_cards, gs.community_cards))) with
  | nil => exact absurd hw hwne
  | cons w ws =>
    rw [hw] at hwnodup
    simp only [List.isEmpty_cons, Bool.false_eq_true, if_false]
    set winners : List HandResult := w :: ws with hwinners
    set P := gs.get_total_pot with hP
    set W := winners.length with hW
    set share := P.ediv (W : Int) with hshare
    set rem := P.emod (W : Int) with hrem
    set recs := winners.enum.map (fun iw =>
      ({ player_id := iw.2.player_id,
         username := ((findPlayer gs iw.2.player_id).getD default).username,
         amount := share + (if (iw.1 : Int) < rem then 1 else 0),
         hand := iw.2.name } : WinRec)) with hrecs
    have hpidmap : recs.map (·.player_id) = winners.map (·.player_id) := by
      rw [hrecs, List.map_map]
      have hc : ((fun r : WinRec => r.player_id) ∘ (fun iw : Nat × HandResult =>
          ({ player_id := iw.2.player_id,
             username := ((findPlayer gs iw.2.player_id).getD default).username,
             amount := share + (if (iw.1 : Int) < rem then 1 else 0),
             hand := iw.2.name } : WinRec))) =
          ((fun h : HandResult => h.player_id) ∘ Prod.snd) := rfl
      rw [hc, ← List.map_map, List.enum_eq_enumFrom, List.enumFrom_map_snd]
    have hamtmap : recs.map (·.amount) =
        (List.range W).map (fun i : Nat =>
          share + if (i : Int) < rem then (1 : Int) else 0) := by
      rw [hrecs, List.map_map]
      have hc : ((fun r : WinRec => r.amount) ∘ (fun iw : Nat × HandResult =>
          ({ player_id := iw.2.player_id,
             username := ((findPlayer gs iw.2.player_id).getD default).username,
             amount := share + (if (iw.1 : Int) < rem then 1 else 0),
             hand := iw.2.name } : WinRec))) =
          ((fun i : Nat => share + if (i : Int) < rem then (1 : Int) else 0) ∘
            Prod.fst) := rfl
      rw [hc, ← List.map_map, List.enum_eq_enumFrom, List.enumFrom_map_fst,
        ← hW, ← List.range_eq_range']
    have h0 : (0 : Int) < (W : Int) := by
      rw [hW, hwinners]
      simp
    have hsum : (recs.map (·.amount)).sum = P := by
      rw [hamtmap, award_sum]
      have h1 : 0 ≤ rem := Int.emod_nonneg P (by omega)
      have h2 : rem < (W : Int) := Int.emod_lt_of_pos P h0
      have h3 : max 0 (min rem (W : Int)) = rem := by omega
      rw [h3, hshare, hrem]
      exact Int.ediv_add_emod P (W : Int)
    have hrsub : ∀ r ∈ recs, r.player_id ∈ gs.players.map (·.player_id) := by
      intro r hr
      have h1 : r.player_id ∈ recs.map (·.player_id) := List.mem_map_of_mem _ hr
      rw [hpidmap] at h1
      obtain ⟨w', hw', hww⟩ := List.mem_map.mp h1
      have h2 : w'.player_id ∈ (act.map (fun p =>
          (p.player_id, p.hole_cards, gs.community_cards))).map (·.1) := by
        apply winners_pid_sub
        rw [hw]
        exact hw'
      rw [List.map_map] at h2
      have hc : ((fun x : String × List Card × List Card => x.1) ∘
          (fun p : Player => (p.player_id, p.hole_cards, gs.community_cards))) =
          (fun p : Player => p.player_id) := rfl
      rw [hc] at h2
      rw [← hww]
      exact hsub w'.player_id h2
    have hrecsnodup : (recs.map (·.player_id)).Nodup := by
      rw [hpidmap]
      exact hwnodup
    have hmain := awards_foldl_chipSum recs gs hnd hrsub
    rw [hsum] at hmain
    have hplay := awards_foldl_players recs gs hrecsnodup
    refine ⟨by rw [hW, hwinners]; simp, hpidmap, hamtmap, hsum, hplay, 
      awards_foldl_pots recs gs, hmain⟩

theorem find?_pid_eq_some (recs : List WinRec) (r : WinRec) :
    ∀ (hnd : (recs.map (·.player_id)).Nodup) (hr : r ∈ recs),
    recs.find? (fun x => x.player_id == r.player_id) = some r := by
  induction recs with
  | nil => intro _ hr; cases hr
  | cons a rest ih =>
    intro hnd hr
    rw [List.map_cons] at hnd
    have hnd2 := List.nodup_cons.mp hnd
    rcases List.mem_cons.mp hr with rfl | hr2
    · apply List.find?_cons_of_pos
      simp
    · have hne : a.player_id ≠ r.player_id := by
        intro he
        exact hnd2.1 (he ▸ List.mem_map_of_mem _ hr2)
      have hstep : (a :: rest).find? (fun x => x.player_id == r.player_id) =
          rest.find? (fun x => x.player_id == r.player_id) := by
        apply List.find?_cons_of_neg
        simp [hne]
      rw [hstep]
      exact ih hnd2.2 hr2

theorem zeroed_pots_total (l : List PotInfo) :
    ((l.map (fun pot => { pot with amount := 0 })).map (·.amount)).sum = 0 := by
  induction l with
  | nil => rfl
  | cons p ps ih => simpa using ih

theorem active_pids_sub (gs : GameState) :
    ∀ pid ∈ gs.get_active_players.map (·.player_id),
      pid ∈ gs.players.map (·.player_id) := by
  intro pid hpid
  obtain ⟨p, hp, hpe⟩ := List.mem_map.mp hpid
  exact hpe ▸ List.mem_map_of_mem _ (List.mem_of_mem_filter hp)

theorem active_pids_nodup (gs : GameState)
    (hnd : (gs.players.map (·.player_id)).Nodup) :
    (gs.get_active_players.map (·.player_id)).Nodup :=
  List.Nodup.sublist ((List.filter_sublist _).map _) hnd

theorem sum_map_zero (l : List PotInfo) :
    (l.map (fun _ => (0 : Int))).sum = 0 := by
  induction l with
  | nil => rfl
  | cons p ps ih => simpa using ih

theorem endHand_conservation (gs : GameState)
    (h1 : 1 ≤ gs.get_active_players.length)
    (hnd : (gs.players.map (·.player_id)).Nodup) :
    chipSum (endHand gs).players + (endHand gs).get_total_pot =
      chipSum gs.players + gs.get_total_pot := by
  have hne : gs.get_active_players ≠ [] := by
    intro h
    rw [h] at h1
    cases h1
  simp only [endHand]
  set gs2 : GameState :=
    { gs with
      phase := GamePhase.showdown, betting_round := BettingRound.showdown,
      current_player_id := none } with hgs2
  have hact2 : gs2.get_active_players = gs.get_active_players := rfl
  rw [hact2]
  by_cases hL : gs.get_active_players.length = 1
  · rw [if_pos hL]
    cases hacts : gs.get_active_players with
    | nil => exact absurd hacts hne
    | cons w0 rest =>
      have hrest : rest = [] := by
        rw [hacts] at hL
        simpa using hL
      subst hrest
      have hw0mem : w0.player_id ∈ gs.players.map (·.player_id) := by
        apply active_pids_sub
        rw [hacts]
        simp
      simp only [GameState.get_total_pot, List.map_map, List.headD_cons]
      rw [show ((fun x : PotInfo => x.amount) ∘
          (fun pot : PotInfo => { pot with amount := 0 })) =
          (fun _ : PotInfo => (0 : Int)) from rfl]
      rw [sum_map_zero]
      have hchips : chipSum (updatePlayer gs2 w0.player_id
          (fun p => { p with chips :=
            p.chips + (gs.pots.map (fun x : PotInfo => x.amount)).sum })).players =
          chipSum gs.players + (gs.pots.map (fun x : PotInfo => x.amount)).sum := by
        unfold updatePlayer
        exact chipSum_update_add gs.players w0.player_id _ hnd hw0mem
      rw [hchips]
      have hgtp : (gs.pots.map (fun x : PotInfo => x.amount)).sum =
          gs.get_total_pot := rfl
      rw [hgtp]
      ring
  · rw [if_neg hL]
    have hsub2 : ∀ pid ∈ gs.get_active_players.map (·.player_id),
        pid ∈ gs2.players.map (·.player_id) := active_pids_sub gs
    have hev := evaluateShowdown_chipSum gs2 gs.get_active_players hne hnd hsub2
    simp only [GameState.get_total_pot, List.map_map]
    rw [show ((fun x : PotInfo => x.amount) ∘
        (fun pot : PotInfo => { pot with amount := 0 })) =
        (fun _ : PotInfo => (0 : Int)) from rfl]
    rw [sum_map_zero]
    rw [show chipSum gs.players + (gs.pots.map (fun x : PotInfo => x.amount)).sum =
        chipSum gs.players + gs.get_total_pot from rfl]
    rw [hev.1]
    rw [show gs2.get_total_pot = gs.get_total_pot from rfl,
      show (gs2.players : List Player) = gs.players from rfl]
    ring

/-- Claim C5: with two or more contenders at showdown the co-winners
are exactly the players whose (category, tiebreakers) pair equals the
maximum over all contenders; each of the W co-winners receives
floor(P/W) plus at most one remainder chip, assigned by the
deterministic position rule i < P mod W; the awarded amounts sum to P;
every pot is zero afterwards. -/
theorem C5_showdown_split (gs : GameState)
    (h2 : 2 ≤ gs.get_active_players.length)
    (hnd : (gs.players.map (·.player_id)).Nodup) :
    ∀ winners, winners = determine_winners (gs.get_active_players.map
        (fun p => (p.player_id, p.hole_cards, gs.community_cards))) →
    ∀ P, P = gs.get_total_pot →
    ∀ gs', gs' = endHand gs →
    0 < winners.length ∧
    (∃ best : Int × List Int,
      (∀ q ∈ gs.get_active_players,
        keyGe best (handKey q gs.community_cards) = true) ∧
      (∃ q ∈ gs.get_active_players, handKey q gs.community_cards = best) ∧
      (∀ pid : String, pid ∈ winners.map (·.player_id) ↔
        ∃ q ∈ gs.get_active_players, q.player_id = pid ∧
          handKey q gs.community_cards = best)) ∧
    gs'.hand_winners.map (·.player_id) = winners.map (·.player_id) ∧
    gs'.hand_winners.map (·.amount) =
      (List.range winners.length).map (fun i : Nat =>
        P.ediv (winners.length : Int) +
          if (i : Int) < P.emod (winners.length : Int) then (1 : Int) else 0) ∧
    (∀ w ∈ gs'.hand_winners,
      w.amount = P.ediv (winners.length : Int) ∨
      w.amount = P.ediv (winners.length : Int) + 1) ∧
    (gs'.hand_winners.map (·.amount)).sum = P ∧
    (∀ w ∈ gs'.hand_winners, ∀ p ∈ gs.players, p.player_id = w.player_id →
      ∃ p' ∈ gs'.players, p'.player_id = p.player_id ∧
        p'.chips = p.chips + w.amount) ∧
    (∀ p ∈ gs.players, p.player_id ∉ winners.map (·.player_id) →
      ∃ p' ∈ gs'.players, p'.player_id = p.player_id ∧ p'.chips = p.chips) ∧
    chipSum gs'.players = chipSum gs.players + P ∧
    (∀ pot ∈ gs'.pots, pot.amount = 0) := by
  intro winners hweq P hPeq gs' hgs'eq
  have hne : gs.get_active_players ≠ [] := by
    intro h
    rw [h] at h2
    simp at h2
  have hnda0 : (gs.get_active_players.map (·.player_id)).Nodup :=
    active_pids_nodup gs hnd
  have hnda : ((gs.get_active_players.map (fun p =>
      (p.player_id, p.hole_cards, gs.community_cards))).map (·.1)).Nodup := by
    rw [List.map_map]
    exact hnda0
  have hL : ¬ (gs.get_active_players.length = 1) := by omega
  set gs2 : GameState :=
    { gs with
      phase := GamePhase.showdown, betting_round := BettingRound.showdown,
      current_player_id := none } with hgs2
  have hact2 : gs2.get_active_players = gs.get_active_players := rfl
  have hend : endHand gs =
      { (evaluateShowdown gs2 gs.get_active_players) with
        pots := (evaluateShowdown gs2 gs.get_active_players).pots.map
          (fun pot => { pot with amount := 0 }),
        phase := GamePhase.hand_complete } := by
    simp only [endHand]
    rw [hact2, if_neg hL]
  set ev : GameState := evaluateShowdown gs2 gs.get_active_players with hev
  have hsub2 : ∀ pid ∈ gs.get_active_players.map (·.player_id),
      pid ∈ gs2.players.map (·.player_id) := active_pids_sub gs
  have hfull := evaluateShowdown_full gs2 gs.get_active_players hne hnd hnda hsub2
    winners hweq P hPeq
  obtain ⟨h0, ha, hb, hsum, hplay, hpotseq, hcs⟩ := hfull
  have hWw : gs'.hand_winners = ev.hand_winners := by
    rw [hgs'eq, hend]
  have hWp : gs'.players = ev.players := by
    rw [hgs'eq, hend]
  have hWpots : gs'.pots = ev.pots.map (fun pot => { pot with amount := 0 }) := by
    rw [hgs'eq, hend]
  have hwnodup : (ev.hand_winners.map (·.player_id)).Nodup := by
    rw [ha, hweq]
    exact winners_pid_nodup _ hnda
  refine ⟨h0, ?_, by rw [hWw, ha], by rw [hWw, hb], ?_, by rw [hWw, hsum], ?_, ?_,
    by rw [hWp, hcs], ?_⟩
  · -- winner-set characterization
    have hhne : gs.get_active_players.map (fun p =>
        (p.player_id, p.hole_cards, gs.community_cards)) ≠ [] := by
      intro h
      exact hne (List.map_eq_nil.mp h)
    obtain ⟨best, rest, hsort, hge, hbestmem, hiff⟩ := winners_mem_iff _ hhne
    have hp2 : (compare_hands (gs.get_active_players.map (fun p =>
        (p.player_id, p.hole_cards, gs.community_cards)))).Perm
        ((gs.get_active_players.map (fun p =>
          (p.player_id, p.hole_cards, gs.community_cards))).map (fun h =>
          let r := get_best_hand h.2.1 h.2.2
          ({ player_id := h.1, rank := r.2.1, tiebreakers := r.2.2.1,
             name := r.2.2.2, cards := r.1 } : HandResult))) := by
      unfold compare_hands
      exact sortDescBy_perm _ _
    refine ⟨(best.rank, best.tiebreakers), ?_, ?_, ?_⟩
    · intro q hq
      have hrow : (let r := get_best_hand q.hole_cards gs.community_cards
          ({ player_id := q.player_id, rank := r.2.1, tiebreakers := r.2.2.1,
             name := r.2.2.2, cards := r.1 } : HandResult)) ∈
          compare_hands (gs.get_active_players.map (fun p =>
            (p.player_id, p.hole_cards, gs.community_cards))) := by
        apply hp2.mem_iff.mpr
        apply List.mem_map.mpr
        exact ⟨(q.player_id, q.hole_cards, gs.community_cards),
          List.mem_map_of_mem _ hq, rfl⟩
      exact hge _ hrow
    · obtain ⟨h, hh, hkey⟩ := hbestmem
      obtain ⟨q, hq, hqh⟩ := List.mem_map.mp hh
      refine ⟨q, hq, ?_⟩
      rw [← hqh] at hkey
      exact hkey
    · intro pid
      rw [hweq, hiff pid]
      constructor
      · rintro ⟨h, hh, hpid, hkey⟩
        obtain ⟨q, hq, hqh⟩ := List.mem_map.mp hh
        refine ⟨q, hq, ?_, ?_⟩
        · rw [← hqh] at hpid
          exact hpid
        · rw [← hqh] at hkey
          exact hkey
      · rintro ⟨q, hq, hpid, hkey⟩
        exact ⟨(q.player_id, q.hole_cards, gs.community_cards),
          List.mem_map_of_mem _ hq, hpid, hkey⟩
  · -- amounts are share or share + 1
    intro w hw
    rw [hWw] at hw
    have hm : w.amount ∈ ev.hand_winners.map (·.amount) :=
      List.mem_map_of_mem _ hw
    rw [hb] at hm
    obtain ⟨i, _, hieq⟩ := List.mem_map.mp hm
    by_cases hi : (i : Int) < P.emod (winners.length : Int)
    · right
      rw [← hieq, if_pos hi]
    · left
      rw [← hieq, if_neg hi]
      ring
  · -- each winner's chips grow by their amount
    intro w hw p hp hpe
    rw [hWw] at hw
    have hfind : ev.hand_winners.find? (fun x => x.player_id == p.player_id) =
        some w := by
      rw [hpe]
      exact find?_pid_eq_some ev.hand_winners w hwnodup hw
    refine ⟨(match ev.hand_winners.find? (fun x => x.player_id == p.player_id) with
      | some r => { p with chips := p.chips + r.amount }
      | none => p), ?_, ?_, ?_⟩
    · rw [hWp, hplay]
      exact List.mem_map.mpr ⟨p, hp, rfl⟩
    · rw [hfind]
    · rw [hfind]
  · -- non-winners keep their chips
    intro p hp hnw
    have hfind : ev.hand_winners.find? (fun x => x.player_id == p.player_id) =
        none := by
      rw [List.find?_eq_none]
      intro x hx
      simp only [beq_iff_eq]
      intro he
      refine hnw ?_
      rw [← ha, ← he]
      exact List.mem_map_of_mem _ hx
    refine ⟨(match ev.hand_winners.find? (fun x => x.player_id == p.player_id) with
      | some r => { p with chips := p.chips + r.amount }
      | none => p), ?_, ?_, ?_⟩
    · rw [hWp, hplay]
      exact List.mem_map.mpr ⟨p, hp, rfl⟩
    · rw [hfind]
    · rw [hfind]
  · -- pots are zero
    intro pot hpot
    rw [hWpots] at hpot
    obtain ⟨pot0, _, hpz⟩ := List.mem_map.mp hpot
    rw [← hpz]

/-- Witness for C5: the split theorem applied to the two tied
contenders of gsW5 with a 500-chip pot; concretely each receives 250
and the pot is zeroed. -/
theorem C5_witness :
    (2 ≤ gsW5.get_active_players.length ∧
     (gsW5.players.map (·.player_id)).Nodup) ∧
    (
    0 < (determine_winners (gsW5.get_active_players.map
        (fun p => (p.player_id, p.hole_cards, gsW5.community_cards)))).length ∧
    (∃ best : Int × List Int,
      (∀ q ∈ gsW5.get_active_players,
        keyGe best (handKey q gsW5.community_cards) = true) ∧
      (∃ q ∈ gsW5.get_active_players, handKey q gsW5.community_cards = best) ∧
      (∀ pid : String, pid ∈ (determine_winners (gsW5.get_active_players.map
        (fun p => (p.player_id, p.hole_cards, gsW5.community_cards)))).map (·.player_id) ↔
        ∃ q ∈ gsW5.get_active_players, q.player_id = pid ∧
          handKey q gsW5.community_cards = best)) ∧
    (endHand gsW5).hand_winners.map (·.player_id) = (determine_winners (gsW5.get_active_players.map
        (fun p => (p.player_id, p.hole_cards, gsW5.community_cards)))).map (·.player_id) ∧
    (endHand gsW5).hand_winners.map (·.amount) =
      (List.range (determine_winners (gsW5.get_active_players.map
        (fun p => (p.player_id, p.hole_cards, gsW5.community_cards)))).length).map (fun i : Nat =>
        gsW5.get_total_pot.ediv ((determine_winners (gsW5.get_active_players.map
        (fun p => (p.player_id, p.hole_cards, gsW5.community_cards)))).length : Int) +
          if (i : Int) < gsW5.get_total_pot.emod ((determine_winners (gsW5.get_active_players.map
        (fun p => (p.player_id, p.hole_cards, gsW5.community_cards)))).length : Int) then (1 : Int) else 0) ∧
    (∀ w ∈ (endHand gsW5).hand_winners,
      w.amount = gsW5.get_total_pot.ediv ((determine_winners (gsW5.get_active_players.map
        (fun p => (p.player_id, p.hole_cards, gsW5.community_cards)))).length : Int) ∨
      w.amount = gsW5.get_total_pot.ediv ((determine_winners (gsW5.get_active_players.map
        (fun p => (p.player_id, p.hole_cards, gsW5.community_cards)))).length : Int) + 1) ∧
    ((endHand gsW5).hand_winners.map (·.amount)).sum = gsW5.get_total_pot ∧
    (∀ w ∈ (endHand gsW5).hand_winners, ∀ p ∈ gsW5.players, p.player_id = w.player_id →
      ∃ p' ∈ (endHand gsW5).players, p'.player_id = p.player_id ∧
        p'.chips = p.chips + w.amount) ∧
    (∀ p ∈ gsW5.players, p.player_id ∉ (determine_winners (gsW5.get_active_players.map
        (fun p => (p.player_id, p.hole_cards, gsW5.community_cards)))).map (·.player_id) →
      ∃ p' ∈ (endHand gsW5).players, p'.player_id = p.player_id ∧ p'.chips = p.chips) ∧
    chipSum (endHand gsW5).players = chipSum gsW5.players + gsW5.get_total_pot ∧
    (∀ pot ∈ (endHand gsW5).pots, pot.amount = 0)) ∧
    (endHand gsW5).players.map (·.chips) = [250, 250] ∧
    (endHand gsW5).hand_winners.map (·.amount) = [250, 250] ∧
    (endHand gsW5).pots.map (·.amount) = [0] := by
  refine ⟨⟨by decide, by decide⟩, ?_, by decide, by decide, by decide⟩
  exact C5_showdown_split gsW5 (by decide) (by decide) _ rfl _ rfl _ rfl

theorem map_proj_of_preserved {β : Type} (l : List Player) (F : Player → Player)
    (proj : Player → β) (h : ∀ p, proj (F p) = proj p) :
    (l.map F).map proj = l.map proj := by
  rw [List.map_map]
  apply List.map_congr_left
  intro p _
  exact h p

theorem chipSum_map_preserved (l : List Player) (F : Player → Player)
    (h : ∀ p, (F p).chips = p.chips) :
    chipSum (l.map F) = chipSum l := by
  unfold chipSum
  rw [map_proj_of_preserved l F _ h]

theorem addToPot0_total (l : List PotInfo) (a : Int) (h : l ≠ []) :
    ((addToPot0 l a).map (·.amount)).sum = (l.map (·.amount)).sum + a := by
  cases l with
  | nil => exact absurd rfl h
  | cons p rest => simp [addToPot0]; ring

theorem chipSum_update_find (l : List Player) :
    ∀ (pid : String) (f : Player → Player) (p0 : Player) (amt : Int),
    (l.map (·.player_id)).Nodup →
    l.find? (fun p => p.player_id == pid) = some p0 →
    (f p0).chips = p0.chips + amt →
    chipSum (l.map (fun p => if p.player_id = pid then f p else p)) =
      chipSum l + amt := by
  induction l with
  | nil => intro pid f p0 amt hnd hfind hch; cases hfind
  | cons q qs ih =>
    intro pid f p0 amt hnd hfind hch
    rw [List.map_cons] at hnd
    have hnd2 := List.nodup_cons.mp hnd
    by_cases hq : q.player_id = pid
    · have hfq : (q :: qs).find? (fun p => p.player_id == pid) = some q := by
        apply List.find?_cons_of_pos
        simp [hq]
      rw [hfq] at hfind
      have hp0 : p0 = q := (Option.some.injEq _ _).mp hfind.symm
      rw [List.map_cons, if_pos hq]
      have hrest : qs.map (fun p => if p.player_id = pid then f p else p) = qs := by
        apply map_ite_eq_self_of_not_mem
        intro p hp hpeq
        exact hnd2.1 (by rw [hq, ← hpeq]; exact List.mem_map_of_mem _ hp)
      rw [hrest]
      show (f q).chips + chipSum qs = (q.chips + chipSum qs) + amt
      rw [hp0] at hch
      rw [hch]
      ring
    · have hfq : (q :: qs).find? (fun p => p.player_id == pid) =
          qs.find? (fun p => p.player_id == pid) := by
        apply List.find?_cons_of_neg
        simp [hq]
      rw [hfq] at hfind
      rw [List.map_cons, if_neg hq]
      show q.chips + chipSum (qs.map _) = (q.chips + chipSum qs) + amt
      rw [ih pid f p0 amt hnd2.2 hfind hch]
      ring

theorem setFirstToAct_eq (g : GameState) :
    ∃ c, setFirstToAct g = { g with current_player_id := c } := by
  unfold setFirstToAct
  by_cases h : g.get_players_to_act.isEmpty
  · exact ⟨none, by rw [if_pos h]⟩
  · exact ⟨_, by rw [if_neg h]⟩

theorem validate_ok_find (gs : GameState) (pid : String) (a : PlayerAction)
    (h : (validate_action gs pid a).ok = true) :
    ∃ p0, findPlayer gs pid = some p0 ∧ p0.status = .active := by
  unfold validate_action at h
  by_cases h1 : gs.current_player_id ≠ some pid
  · rw [if_pos h1] at h
    simp at h
  · rw [if_neg h1] at h
    by_cases h2 : gs.phase ≠ GamePhase.betting
    · rw [if_pos h2] at h
      simp at h
    · rw [if_neg h2] at h
      cases hf : findPlayer gs pid with
      | none => rw [hf] at h; simp at h
      | some p =>
        rw [hf] at h
        by_cases h3 : p.status ≠ PlayerStatus.active
        · simp only [if_pos h3] at h
          simp at h
        · exact ⟨p, rfl, not_not.mp h3⟩

theorem applyValidAction_conserve (gs : GameState) (pid : String)
    (t : ActionType) (actual : Int) (p0 : Player)
    (hpots : gs.pots ≠ [])
    (hnd : (gs.players.map (·.player_id)).Nodup)
    (hfind : findPlayer gs pid = some p0) :
    chipSum (applyValidAction gs pid t actual).players +
      (applyValidAction gs pid t actual).get_total_pot =
      chipSum gs.players + gs.get_total_pot := by
  have hfind' : gs.players.find? (fun p => p.player_id == pid) = some p0 := hfind
  cases t with
  | fold =>
    simp only [applyValidAction, addActionHistory, updatePlayer,
      GameState.get_total_pot]
    rw [chipSum_map_preserved _ _ (fun p => by by_cases h : p.player_id = pid <;> simp [h])]
    rw [chipSum_map_preserved _ _ (fun p => by by_cases h : p.player_id = pid <;> simp [h])]
  | check =>
    simp only [applyValidAction, addActionHistory, updatePlayer,
      GameState.get_total_pot]
    rw [chipSum_map_preserved _ _ (fun p => by by_cases h : p.player_id = pid <;> simp [h])]
    rw [chipSum_map_preserved _ _ (fun p => by by_cases h : p.player_id = pid <;> simp [h])]
  | call =>
    simp only [applyValidAction, addActionHistory, updatePlayer,
      GameState.get_total_pot]
    rw [chipSum_map_preserved _ _ (fun p => by by_cases h : p.player_id = pid <;> simp [h])]
    rw [chipSum_update_find gs.players pid _ p0 (-actual) hnd hfind'
      (by by_cases h0 : p0.chips - actual = 0 <;> simp [h0] <;> omega)]
    rw [addToPot0_total gs.pots actual hpots]
    ring
  | bet =>
    simp only [applyValidAction, addActionHistory, updatePlayer,
      GameState.get_total_pot]
    rw [chipSum_map_preserved _ _ (fun p => by by_cases h : p.player_id = pid <;> simp [h])]
    rw [chipSum_map_preserved _ _ (fun p => by
      by_cases h : p.player_id = pid <;> simp [h] <;>
        by_cases h0 : p.chips = 0 <;> simp [h0])]
    rw [chipSum_map_preserved _ _ (fun p => by
      by_cases h : p.status = PlayerStatus.active ∧ p.player_id ≠ pid <;> simp [h])]
    rw [chipSum_update_find gs.players pid _ p0 (-actual) hnd hfind' (by simp; omega)]
    rw [addToPot0_total gs.pots actual hpots]
    ring
  | raise =>
    simp only [applyValidAction, hfind, addActionHistory, updatePlayer,
      GameState.get_total_pot]
    rw [chipSum_map_preserved _ _ (fun p => by by_cases h : p.player_id = pid <;> simp [h])]
    rw [chipSum_map_preserved _ _ (fun p => by
      by_cases h : p.player_id = pid <;> simp [h] <;>
        by_cases h0 : p.chips = 0 <;> simp [h0])]
    rw [chipSum_map_preserved _ _ (fun p => by
      by_cases h : p.status = PlayerStatus.active ∧ p.player_id ≠ pid <;> simp [h])]
    rw [chipSum_update_find gs.players pid _ p0 (-actual) hnd hfind' (by simp; omega)]
    rw [addToPot0_total gs.pots actual hpots]
    ring
  | all_in =>
    simp only [applyValidAction, hfind, addActionHistory, updatePlayer,
      GameState.get_total_pot]
    by_cases hgt : p0.current_bet + p0.chips > gs.current_bet
    · rw [if_pos hgt]
      rw [chipSum_map_preserved _ _ (fun p => by by_cases h : p.player_id = pid <;> simp [h])]
      rw [chipSum_map_preserved _ _ (fun p => by
        by_cases h : p.status = PlayerStatus.active ∧ p.player_id ≠ pid <;> simp [h])]
      rw [chipSum_update_find gs.players pid _ p0 (-p0.chips) hnd hfind' (by simp)]
      rw [addToPot0_total gs.pots p0.chips hpots]
      ring
    · rw [if_neg hgt]
      rw [chipSum_map_preserved _ _ (fun p => by by_cases h : p.player_id = pid <;> simp [h])]
      rw [chipSum_update_find gs.players pid _ p0 (-p0.chips) hnd hfind' (by simp)]
      rw [addToPot0_total gs.pots p0.chips hpots]
      ring

theorem active_pos_of_mem (gs : GameState) (q : Player)
    (hq : q ∈ gs.players) (hs : q.status = .active ∨ q.status = .all_in) :
    1 ≤ gs.get_active_players.length := by
  have hmem : q ∈ gs.get_active_players := by
    apply List.mem_filter.mpr
    refine ⟨hq, ?_⟩
    rcases hs with h | h <;> simp [h]
  exact List.length_pos.mpr (List.ne_nil_of_mem hmem)

theorem applyValidAction_survivor (gs : GameState) (pid : String)
    (t : ActionType) (actual : Int) (q : Player)
    (hq : q ∈ gs.players) (hne : q.player_id ≠ pid) :
    ∃ q', q' ∈ (applyValidAction gs pid t actual).players ∧
      q'.player_id = q.player_id ∧ q'.status = q.status := by
  cases t with
  | fold =>
    simp only [applyValidAction, addActionHistory, updatePlayer]
    exact ⟨_, List.mem_map_of_mem _ (List.mem_map_of_mem _ hq), by simp [hne]⟩
  | check =>
    simp only [applyValidAction, addActionHistory, updatePlayer]
    exact ⟨_, List.mem_map_of_mem _ (List.mem_map_of_mem _ hq), by simp [hne]⟩
  | call =>
    simp only [applyValidAction, addActionHistory, updatePlayer]
    exact ⟨_, List.mem_map_of_mem _ (List.mem_map_of_mem _ hq), by simp [hne]⟩
  | bet =>
    simp only [applyValidAction, addActionHistory, updatePlayer]
    refine ⟨_, List.mem_map_of_mem _ (List.mem_map_of_mem _
      (List.mem_map_of_mem _ (List.mem_map_of_mem _ hq))), ?_⟩
    by_cases hr : q.status = PlayerStatus.active <;> simp [hne, hr]
  | raise =>
    cases hf : findPlayer gs pid with
    | none =>
      simp only [applyValidAction, hf, addActionHistory, updatePlayer]
      exact ⟨_, List.mem_map_of_mem _ hq, by simp [hne]⟩
    | some p0 =>
      simp only [applyValidAction, hf, addActionHistory, updatePlayer]
      refine ⟨_, List.mem_map_of_mem _ (List.mem_map_of_mem _
        (List.mem_map_of_mem _ (List.mem_map_of_mem _ hq))), ?_⟩
      by_cases hr : q.status = PlayerStatus.active <;> simp [hne, hr]
  | all_in =>
    cases hf : findPlayer gs pid with
    | none =>
      simp only [applyValidAction, hf, addActionHistory, updatePlayer]
      exact ⟨_, List.mem_map_of_mem _ hq, by simp [hne]⟩
    | some p0 =>
      simp only [applyValidAction, hf, addActionHistory, updatePlayer]
      by_cases hgt : p0.current_bet + p0.chips > gs.current_bet
      · rw [if_pos hgt]
        refine ⟨_, List.mem_map_of_mem _ (List.mem_map_of_mem _
          (List.mem_map_of_mem _ hq)), ?_⟩
        by_cases hr : q.status = PlayerStatus.active <;> simp [hne, hr]
      · rw [if_neg hgt]
        exact ⟨_, List.mem_map_of_mem _ (List.mem_map_of_mem _ hq), by simp [hne]⟩

theorem applyValidAction_actor (gs : GameState) (pid : String)
    (t : ActionType) (actual : Int) (p0 : Player)
    (hnf : t ≠ .fold)
    (hfind : findPlayer gs pid = some p0)
    (hstat : p0.status = .active) :
    ∃ q', q' ∈ (applyValidAction gs pid t actual).players ∧
      (q'.status = .active ∨ q'.status = .all_in) := by
  have hp0mem : p0 ∈ gs.players := List.mem_of_find?_eq_some hfind
  have hpid : p0.player_id = pid := by
    have := List.find?_some hfind
    simpa using this
  cases t with
  | fold => exact absurd rfl hnf
  | check =>
    simp only [applyValidAction, addActionHistory, updatePlayer]
    refine ⟨_, List.mem_map_of_mem _ (List.mem_map_of_mem _ hp0mem), ?_⟩
    left
    simp [hpid, hstat]
  | call =>
    simp only [applyValidAction, addActionHistory, updatePlayer]
    refine ⟨_, List.mem_map_of_mem _ (List.mem_map_of_mem _ hp0mem), ?_⟩
    by_cases h0 : p0.chips - actual = 0
    · right; simp [hpid, h0]
    · left; simp [hpid, h0, hstat]
  | bet =>
    simp only [applyValidAction, addActionHistory, updatePlayer]
    refine ⟨_, List.mem_map_of_mem _ (List.mem_map_of_mem _
      (List.mem_map_of_mem _ (List.mem_map_of_mem _ hp0mem))), ?_⟩
    by_cases h0 : p0.chips - actual = 0
    · right; simp [hpid, h0]
    · left; simp [hpid, h0, hstat]
  | raise =>
    simp only [applyValidAction, hfind, addActionHistory, updatePlayer]
    refine ⟨_, List.mem_map_of_mem _ (List.mem_map_of_mem _
      (List.mem_map_of_mem _ (List.mem_map_of_mem _ hp0mem))), ?_⟩
    by_cases h0 : p0.chips - actual = 0
    · right; simp [hpid, h0]
    · left; simp [hpid, h0, hstat]
  | all_in =>
    simp only [applyValidAction, hfind, addActionHistory, updatePlayer]
    by_cases hgt : p0.current_bet + p0.chips > gs.current_bet
    · rw [if_pos hgt]
      refine ⟨_, List.mem_map_of_mem _ (List.mem_map_of_mem _
        (List.mem_map_of_mem _ hp0mem)), ?_⟩
      right
      simp [hpid]
    · rw [if_neg hgt]
      refine ⟨_, List.mem_map_of_mem _ (List.mem_map_of_mem _ hp0mem), ?_⟩
      right
      simp [hpid]

theorem applyValidAction_ids (gs : GameState) (pid : String)
    (t : ActionType) (actual : Int) :
    (applyValidAction gs pid t actual).players.map (·.player_id) =
      gs.players.map (·.player_id) := by
  cases t with
  | fold =>
    simp only [applyValidAction, addActionHistory, updatePlayer]
    rw [map_proj_of_preserved _ _ _ (fun p => by by_cases h : p.player_id = pid <;> simp [h])]
    rw [map_proj_of_preserved _ _ _ (fun p => by by_cases h : p.player_id = pid <;> simp [h])]
  | check =>
    simp only [applyValidAction, addActionHistory, updatePlayer]
    rw [map_proj_of_preserved _ _ _ (fun p => by by_cases h : p.player_id = pid <;> simp [h])]
    rw [map_proj_of_preserved _ _ _ (fun p => by by_cases h : p.player_id = pid <;> simp [h])]
  | call =>
    simp only [applyValidAction, addActionHistory, updatePlayer]
    rw [map_proj_of_preserved _ _ _ (fun p => by by_cases h : p.player_id = pid <;> simp [h])]
    rw [map_proj_of_preserved _ _ _ (fun p => by
      by_cases h : p.player_id = pid <;> simp [h] <;>
        by_cases h0 : p.chips - actual = 0 <;> simp [h0])]
  | bet =>
    simp only [applyValidAction, addActionHistory, updatePlayer]
    rw [map_proj_of_preserved _ _ _ (fun p => by by_cases h : p.player_id = pid <;> simp [h])]
    rw [map_proj_of_preserved _ _ _ (fun p => by
      by_cases h : p.player_id = pid <;> simp [h] <;>
        by_cases h0 : p.chips = 0 <;> simp [h0, h])]
    rw [map_proj_of_preserved _ _ _ (fun p => by
      by_cases h : p.status = PlayerStatus.active ∧ p.player_id ≠ pid <;> simp [h])]
    rw [map_proj_of_preserved _ _ _ (fun p => by by_cases h : p.player_id = pid <;> simp [h])]
  | raise =>
    cases hf : findPlayer gs pid with
    | none =>
      simp only [applyValidAction, hf, addActionHistory, updatePlayer]
      rw [map_proj_of_preserved _ _ _ (fun p => by by_cases h : p.player_id = pid <;> simp [h])]
    | some p0 =>
      simp only [applyValidAction, hf, addActionHistory, updatePlayer]
      rw [map_proj_of_preserved _ _ _ (fun p => by by_cases h : p.player_id = pid <;> simp [h])]
      rw [map_proj_of_preserved _ _ _ (fun p => by
        by_cases h : p.player_id = pid <;> simp [h] <;>
          by_cases h0 : p.chips = 0 <;> simp [h0, h])]
      rw [map_proj_of_preserved _ _ _ (fun p => by
        by_cases h : p.status = PlayerStatus.active ∧ p.player_id ≠ pid <;> simp [h])]
      rw [map_proj_of_preserved _ _ _ (fun p => by by_cases h : p.player_id = pid <;> simp [h])]
  | all_in =>
    cases hf : findPlayer gs pid with
    | none =>
      simp only [applyValidAction, hf, addActionHistory, updatePlayer]
      rw [map_proj_of_preserved _ _ _ (fun p => by by_cases h : p.player_id = pid <;> simp [h])]
    | some p0 =>
      simp only [applyValidAction, hf, addActionHistory, updatePlayer]
      by_cases hgt : p0.current_bet + p0.chips > gs.current_bet
      · rw [if_pos hgt]
        rw [map_proj_of_preserved _ _ _ (fun p => by by_cases h : p.player_id = pid <;> simp [h])]
        rw [map_proj_of_preserved _ _ _ (fun p => by
          by_cases h : p.status = PlayerStatus.active ∧ p.player_id ≠ pid <;> simp [h])]
        rw [map_proj_of_preserved _ _ _ (fun p => by by_cases h : p.player_id = pid <;> simp [h])]
      · rw [if_neg hgt]
        rw [map_proj_of_preserved _ _ _ (fun p => by by_cases h : p.player_id = pid <;> simp [h])]
        rw [map_proj_of_preserved _ _ _ (fun p => by by_cases h : p.player_id = pid <;> simp [h])]

theorem get_active_length_map (gs : GameState) (F : Player → Player)
    (h : ∀ p, (F p).status = p.status) :
    (GameState.get_active_players { gs with players := gs.players.map F }).length =
      gs.get_active_players.length := by
  simp only [GameState.get_active_players]
  rw [List.filter_map]
  rw [List.length_map]
  congr 1
  apply List.filter_congr
  intro p _
  simp [Function.comp, h p]

theorem filter_status_length (l : List Player) (F : Player → Player)
    (h : ∀ p, (F p).status = p.status) :
    ((l.map F).filter (fun p => p.status == PlayerStatus.active ||
        p.status == PlayerStatus.all_in)).length =
      (l.filter (fun p => p.status == PlayerStatus.active ||
        p.status == PlayerStatus.all_in)).length := by
  rw [List.filter_map, List.length_map]
  congr 1
  apply List.filter_congr
  intro p _
  simp [Function.comp, h p]

theorem advanceBettingRound_conserve (fuel : Nat) :
    ∀ (gs : GameState) (deck : List Card),
    1 ≤ gs.get_active_players.length →
    (gs.players.map (·.player_id)).Nodup →
    chipSum (advanceBettingRound fuel gs deck).1.players +
      (advanceBettingRound fuel gs deck).1.get_total_pot =
      chipSum gs.players + gs.get_total_pot := by
  induction fuel with
  | zero => intro gs deck h1 hnd; rfl
  | succ fuel ih =>
    intro gs deck h1 hnd
    have hchip2 : chipSum (gs.players.map resetForBettingRound) = chipSum gs.players :=
      chipSum_map_preserved _ _ (fun p => rfl)
    have hids2 : (gs.players.map resetForBettingRound).map (·.player_id) =
        gs.players.map (·.player_id) :=
      map_proj_of_preserved _ _ _ (fun p => rfl)
    have hact2 : ((gs.players.map resetForBettingRound).filter
        (fun p => p.status == PlayerStatus.active ||
          p.status == PlayerStatus.all_in)).length =
        (gs.players.filter (fun p => p.status == PlayerStatus.active ||
          p.status == PlayerStatus.all_in)).length :=
      filter_status_length gs.players resetForBettingRound (fun p => rfl)
    have key : ∀ (gs3 : GameState) (deck3 : List Card),
        gs3.players = gs.players.map resetForBettingRound →
        gs3.pots = gs.pots →
        chipSum (if (setFirstToAct gs3).get_players_to_act.length ≤ 1 then
            advanceBettingRound fuel (setFirstToAct gs3) deck3
          else (setFirstToAct gs3, deck3)).1.players +
          (if (setFirstToAct gs3).get_players_to_act.length ≤ 1 then
            advanceBettingRound fuel (setFirstToAct gs3) deck3
          else (setFirstToAct gs3, deck3)).1.get_total_pot =
          chipSum gs.players + gs.get_total_pot := by
      intro gs3 deck3 hp3 hpot3
      obtain ⟨c, hc⟩ := setFirstToAct_eq gs3
      rw [hc]
      have hchip3 : chipSum ({ gs3 with current_player_id := c } : GameState).players =
          chipSum gs.players := by
        show chipSum gs3.players = chipSum gs.players
        rw [hp3]; exact hchip2
      have hpot3' : ({ gs3 with current_player_id := c } : GameState).get_total_pot =
          gs.get_total_pot := by
        show gs3.get_total_pot = gs.get_total_pot
        unfold GameState.get_total_pot
        rw [hpot3]
      by_cases hle : ({ gs3 with current_player_id := c } : GameState).get_players_to_act.length ≤ 1
      · rw [if_pos hle]
        have hact3 : 1 ≤ ({ gs3 with current_player_id := c } : GameState).get_active_players.length := by
          show 1 ≤ (gs3.players.filter (fun p => p.status == PlayerStatus.active ||
            p.status == PlayerStatus.all_in)).length
          rw [hp3, hact2]
          exact h1
        have hnd3 : (({ gs3 with current_player_id := c } : GameState).players.map (·.player_id)).Nodup := by
          show (gs3.players.map (·.player_id)).Nodup
          rw [hp3, hids2]
          exact hnd
        rw [ih _ deck3 hact3 hnd3, hchip3, hpot3']
      · rw [if_neg hle]
        rw [hchip3, hpot3']
    show chipSum (advanceBettingRound (fuel + 1) gs deck).1.players +
      (advanceBettingRound (fuel + 1) gs deck).1.get_total_pot =
      chipSum gs.players + gs.get_total_pot
    simp only [advanceBettingRound]
    cases hbr : gs.betting_round with
    | river =>
      simp only [hbr]
      have h1' : 1 ≤ (GameState.get_active_players
          { gs with betting_round := BettingRound.river,
                    players := gs.players.map resetForBettingRound,
                    current_bet := 0, min_raise := gs.big_blind,
                    last_raiser_id := none }).length := by
        show 1 ≤ ((gs.players.map resetForBettingRound).filter
          (fun p => p.status == PlayerStatus.active ||
            p.status == PlayerStatus.all_in)).length
        rw [hact2]
        exact h1
      have hnd' : ((GameState.players
          { gs with betting_round := BettingRound.river,
                    players := gs.players.map resetForBettingRound,
                    current_bet := 0, min_raise := gs.big_blind,
                    last_raiser_id := none }).map (·.player_id)).Nodup := by
        show ((gs.players.map resetForBettingRound).map (·.player_id)).Nodup
        rw [hids2]; exact hnd
      have heh := endHand_conservation _ h1' hnd'
      rw [heh]
      show chipSum (gs.players.map resetForBettingRound) + gs.get_total_pot = _
      rw [hchip2]
    | preflop =>
      simp only [hbr]
      exact key _ _ rfl rfl
    | flop =>
      simp only [hbr]
      exact key _ _ rfl rfl
    | turn =>
      simp only [hbr]
      exact key _ _ rfl rfl
    | showdown =>
      simp only [hbr]
      exact key _ _ rfl rfl

theorem checkBRC_conserve (gs : GameState) (deck : List Card)
    (h1 : 1 ≤ gs.get_active_players.length)
    (hnd : (gs.players.map (·.player_id)).Nodup) :
    chipSum (checkBettingRoundComplete gs deck).1.players +
      (checkBettingRoundComplete gs deck).1.get_total_pot =
      chipSum gs.players + gs.get_total_pot := by
  unfold checkBettingRoundComplete
  by_cases hc : ¬ is_betting_round_complete gs = true
  · rw [if_pos hc]
    obtain ⟨c, hcpi⟩ := setNextPlayer_eq gs
    rw [hcpi]
    rfl
  · rw [if_neg hc]
    by_cases hle : gs.get_active_players.length ≤ 1
    · rw [if_pos hle]
      exact endHand_conservation gs h1 hnd
    · rw [if_neg hle]
      exact advanceBettingRound_conserve 4 gs deck h1 hnd

/-- Claim C1 (amended): chip conservation for every accepted action in
the betting phase, provided a fold leaves at least one non-folded
player behind; the pot list is the nonempty one every hand starts with
and player ids are pairwise distinct as Python dict keys are.  The sum
of all chip stacks plus all pot amounts is unchanged by the action.
When the sole remaining contender folds the hypothesis fails, and the
pot is in fact discarded (the counterexample). -/
theorem C1_chip_conservation (gs : GameState) (deck : List Card)
    (pid : String) (a : PlayerAction)
    (hpots : gs.pots ≠ [])
    (hnd : (gs.players.map (·.player_id)).Nodup)
    (hok : (processAction gs deck pid a).2.2.is_valid = true)
    (hcont : a.action_type = .fold →
      ∃ q ∈ gs.players, q.player_id ≠ pid ∧
        (q.status = .active ∨ q.status = .all_in)) :
    chipSum (processAction gs deck pid a).1.players +
      (processAction gs deck pid a).1.get_total_pot =
      chipSum gs.players + gs.get_total_pot := by
  cases hv : (validate_action gs pid a).ok with
  | false =>
    simp [processAction, hv] at hok
  | true =>
    obtain ⟨p0, hfind, hstat⟩ := validate_ok_find gs pid a hv
    simp only [processAction, hv, if_true]
    set actual := (validate_action gs pid a).amount.getD 0 with hactual
    set gs1 := applyValidAction gs pid a.action_type actual with hgs1
    have hcons1 : chipSum gs1.players + gs1.get_total_pot =
        chipSum gs.players + gs.get_total_pot :=
      applyValidAction_conserve gs pid a.action_type actual p0 hpots hnd hfind
    have hids1 : gs1.players.map (·.player_id) = gs.players.map (·.player_id) :=
      applyValidAction_ids gs pid a.action_type actual
    have hnd1 : (gs1.players.map (·.player_id)).Nodup := by
      rw [hids1]; exact hnd
    have hact1 : 1 ≤ gs1.get_active_players.length := by
      by_cases hf : a.action_type = ActionType.fold
      · obtain ⟨q, hqmem, hqne, hqst⟩ := hcont hf
        obtain ⟨q', hq'mem, _, hq'st⟩ :=
          applyValidAction_survivor gs pid a.action_type actual q hqmem hqne
        refine active_pos_of_mem gs1 q' hq'mem ?_
        rw [hq'st]
        exact hqst
      · obtain ⟨q', hq'mem, hq'st⟩ :=
          applyValidAction_actor gs pid a.action_type actual p0 hf hfind hstat
        exact active_pos_of_mem gs1 q' hq'mem hq'st
    calc chipSum (checkBettingRoundComplete gs1 deck).1.players +
          (checkBettingRoundComplete gs1 deck).1.get_total_pot
        = chipSum gs1.players + gs1.get_total_pot :=
          checkBRC_conserve gs1 deck hact1 hnd1
      _ = chipSum gs.players + gs.get_total_pot := hcons1

/-- Counterexample for C1 as stated: at gsC1 the sole remaining
contender A folds; the action is accepted as valid, yet the 50-chip
pot is discarded, the table total dropping from 350 to 300. -/
theorem C1_counterexample :
    (processAction gsC1 [] "A" ⟨.fold, none⟩).2.2.is_valid = true ∧
    gsC1.phase = .betting ∧
    chipSum gsC1.players + gsC1.get_total_pot = 350 ∧
    chipSum (processAction gsC1 [] "A" ⟨.fold, none⟩).1.players +
      (processAction gsC1 [] "A" ⟨.fold, none⟩).1.get_total_pot = 300 := by
  decide

/-- Witness for C1: a valid check by A at gsW1 (pot 30, stacks 100 and
200) conserves the table total of 330. -/
theorem C1_witness :
    (gsW1.pots ≠ [] ∧ (gsW1.players.map (·.player_id)).Nodup ∧
     (processAction gsW1 [] "A" ⟨.check, none⟩).2.2.is_valid = true ∧
     chipSum gsW1.players + gsW1.get_total_pot = 330) ∧
    chipSum (processAction gsW1 [] "A" ⟨.check, none⟩).1.players +
      (processAction gsW1 [] "A" ⟨.check, none⟩).1.get_total_pot =
      chipSum gsW1.players + gsW1.get_total_pot :=
  ⟨⟨by decide, by decide, by decide, by decide⟩,
   C1_chip_conservation gsW1 [] "A" ⟨.check, none⟩ (by decide) (by decide)
     (by decide) (by decide)⟩

/-- Claim C4 (amended): in the betting phase, for a player whose round
bet is consistent with the table bet (both zero, or strictly facing a
bet), with a positive min raise, a stack covering current_bet plus
min_raise and at least the big blind, an action with amount A passes
validate_action iff get_valid_actions lists the action type with A in
its inclusive range (amount irrelevant for FOLD, CHECK, CALL, ALL_IN).
Without these bounds the equivalence fails, e.g. for the big blind
preflop option (the counterexample). -/
theorem C4_valid_actions_iff (gs : GameState) (pid : String) (p : Player)
    (hphase : gs.phase = .betting)
    (hfind : findPlayer gs pid = some p)
    (hpb0 : 0 ≤ p.current_bet)
    (hcbstate : (gs.current_bet = 0 ∧ p.current_bet = 0) ∨
      p.current_bet < gs.current_bet)
    (hmr : 0 < gs.min_raise)
    (hstack : gs.current_bet + gs.min_raise ≤ p.chips)
    (hbbch : gs.big_blind ≤ p.chips)
    (t : ActionType) (A : Int) :
    (validate_action gs pid ⟨t, some A⟩).ok = true ↔
      listedWith gs pid t A = true := by
  by_cases hturn : gs.current_player_id = some pid
  · by_cases hstat : p.status = PlayerStatus.active
    · simp only [validate_action, listedWith, get_valid_actions, validate_check,
        validate_call, validate_bet, validate_raise, hturn, hphase, hfind, hstat,
        ne_eq, not_true_eq_false, if_false, ite_false, not_false_eq_true,
        ite_true, Option.getD_some]
      rcases hcbstate with ⟨hcb, hpb⟩ | hlt
      · cases t <;>
          simp [List.any_append, List.any_cons, List.any_nil, and_assoc,
            hcb, hpb] <;>
          first
            | omega
            | (split_ifs <;> simp_all <;> omega)
      · cases t <;>
          simp [List.any_append, List.any_cons, List.any_nil, and_assoc] <;>
          first
            | omega
            | (split_ifs <;> simp_all <;> omega)
    · simp [validate_action, listedWith, get_valid_actions, hturn, hphase,
        hfind, hstat]
  · simp [validate_action, listedWith, get_valid_actions, hturn, hphase, hfind]

/-- Counterexample for C4 as stated: at gsC4 the big blind B faces a
limp (table bet equals B's round bet), so get_valid_actions lists only
fold, check, bet and all-in; yet validate_action accepts a RAISE to 40.
The accepted action is not listed, refuting completeness. -/
theorem C4_counterexample :
    (validate_action gsC4 "B" ⟨.raise, some 40⟩).ok = true ∧
    listedWith gsC4 "B" ActionType.raise 40 = false := by
  decide

/-- Witness for C4: at gsW4 the amended hypotheses hold, and a raise to
100 is both accepted by validate_action and listed by
get_valid_actions with 100 inside its range. -/
theorem C4_witness :
    (gsW4.phase = GamePhase.betting ∧
     findPlayer gsW4 "B" = some { mkPlayer "B" 500 1 with current_bet := 20 } ∧
     (0 : Int) ≤ ({ mkPlayer "B" 500 1 with current_bet := 20 } : Player).current_bet ∧
     ({ mkPlayer "B" 500 1 with current_bet := 20 } : Player).current_bet < gsW4.current_bet ∧
     0 < gsW4.min_raise ∧
     gsW4.current_bet + gsW4.min_raise ≤
       ({ mkPlayer "B" 500 1 with current_bet := 20 } : Player).chips ∧
     gsW4.big_blind ≤ ({ mkPlayer "B" 500 1 with current_bet := 20 } : Player).chips) ∧
    ((validate_action gsW4 "B" ⟨.raise, some 100⟩).ok = true ↔
      listedWith gsW4 "B" ActionType.raise 100 = true) ∧
    (validate_action gsW4 "B" ⟨.raise, some 100⟩).ok = true ∧
    listedWith gsW4 "B" ActionType.raise 100 = true :=
  ⟨⟨by decide, by decide, by decide, by decide, by decide, by decide, by decide⟩,
   C4_valid_actions_iff gsW4 "B" { mkPlayer "B" 500 1 with current_bet := 20 }
     (by decide) (by decide) (by decide) (Or.inr (by decide)) (by decide)
     (by decide) (by decide) ActionType.raise 100,
   by decide, by decide⟩

theorem find?_of_mem_nodup (l : List Player) :
    ∀ (q : Player), (l.map (·.player_id)).Nodup → q ∈ l →
    l.find? (fun p => p.player_id == q.player_id) = some q := by
  induction l with
  | nil => intro q _ hq; cases hq
  | cons a as ih =>
    intro q hnd hq
    rw [List.map_cons] at hnd
    have hnd2 := List.nodup_cons.mp hnd
    by_cases ha : a.player_id = q.player_id
    · have haq : a = q := by
        rcases List.mem_cons.mp hq with h | h
        · exact h.symm
        · exact absurd (by rw [ha]; exact List.mem_map_of_mem _ h) hnd2.1
      rw [haq]
      apply List.find?_cons_of_pos
      simp
    · have hq2 : q ∈ as := by
        rcases List.mem_cons.mp hq with h | h
        · exact absurd (by rw [h]) ha
        · exact h
      have hstep : (a :: as).find? (fun p => p.player_id == q.player_id) =
          as.find? (fun p => p.player_id == q.player_id) := by
        apply List.find?_cons_of_neg
        simp [ha]
      rw [hstep]
      exact ih q hnd2.2 hq2

theorem find?_map_preserved (l : List Player) (F : Player → Player) (x : String)
    (h : ∀ p, (F p).player_id = p.player_id) :
    (l.map F).find? (fun p => p.player_id == x) =
      (l.find? (fun p => p.player_id == x)).map F := by
  induction l with
  | nil => rfl
  | cons a as ih =>
    rw [List.map_cons]
    by_cases ha : a.player_id = x
    · have h1 : (F a :: as.map F).find? (fun p => p.player_id == x) = some (F a) := by
        apply List.find?_cons_of_pos
        simp [h a, ha]
      have h2 : (a :: as).find? (fun p => p.player_id == x) = some a := by
        apply List.find?_cons_of_pos
        simp [ha]
      rw [h1, h2]; rfl
    · have h1 : (F a :: as.map F).find? (fun p => p.player_id == x) =
          (as.map F).find? (fun p => p.player_id == x) := by
        apply List.find?_cons_of_neg
        simp [h a, ha]
      have h2 : (a :: as).find? (fun p => p.player_id == x) =
          as.find? (fun p => p.player_id == x) := by
        apply List.find?_cons_of_neg
        simp [ha]
      rw [h1, h2, ih]

theorem findPlayer_update (gs : GameState) (pid : String) (f : Player → Player)
    (x : String) (hf : ∀ p, (f p).player_id = p.player_id) :
    findPlayer (updatePlayer gs pid f) x =
      (findPlayer gs x).map (fun p => if p.player_id = pid then f p else p) := by
  unfold findPlayer updatePlayer
  apply find?_map_preserved
  intro p
  by_cases hp : p.player_id = pid <;> simp [hp, hf]

theorem getD_id_ne (l : List Player) (i j : Nat)
    (hnd : (l.map (·.player_id)).Nodup)
    (hi : i < l.length) (hj : j < l.length) (hij : i ≠ j) :
    (l.getD i default).player_id ≠ (l.getD j default).player_id := by
  rw [List.getD_eq_getElem l default hi, List.getD_eq_getElem l default hj]
  intro h
  have hi' : i < (l.map (·.player_id)).length := by simpa
  have hj' : j < (l.map (·.player_id)).length := by simpa
  have hmap : (l.map (·.player_id)).get ⟨i, hi'⟩ = (l.map (·.player_id)).get ⟨j, hj'⟩ := by
    simp [List.getElem_map]
    exact h
  exact hij (congrArg Fin.val ((List.Nodup.get_inj_iff hnd).mp hmap))

theorem getD_mem_of_lt (l : List Player) (i : Nat) (hi : i < l.length) :
    l.getD i default ∈ l := by
  rw [List.getD_eq_getElem l default hi]
  exact List.getElem_mem hi

theorem rotateDealer_eq (gs : GameState) (act : List Player)
    (hact : act = gs.players.filter (fun p => p.status == PlayerStatus.active))
    (hne : act.isEmpty = false) :
    rotateDealer gs = updatePlayer (updatePlayer (updatePlayer
        { gs with dealer_position := (gs.dealer_position + 1) % act.length }
        (act.getD ((gs.dealer_position + 1) % act.length) default).player_id
        (fun p => { p with is_dealer := true }))
      (act.getD (if act.length = 2 then (gs.dealer_position + 1) % act.length
                 else ((gs.dealer_position + 1) % act.length + 1) % act.length)
        default).player_id
      (fun p => { p with is_small_blind := true }))
    (act.getD (if act.length = 2 then ((gs.dealer_position + 1) % act.length + 1) % act.length
               else ((gs.dealer_position + 1) % act.length + 2) % act.length)
      default).player_id
    (fun p => { p with is_big_blind := true }) := by
  unfold rotateDealer
  rw [← hact]
  simp only [hne, Bool.false_eq_true, if_false]

theorem mod_succ_ne (k a : Nat) (hk : 2 ≤ k) (ha : a < k) : (a + 1) % k ≠ a := by
  by_cases h : a + 1 < k
  · rw [Nat.mod_eq_of_lt h]; omega
  · have h2 : a + 1 = k := by omega
    rw [h2, Nat.mod_self]; omega

theorem mod_two_step_ne (k a : Nat) (hk : 3 ≤ k) (ha : a < k) :
    (a + 2) % k ≠ a := by
  by_cases h : a + 2 < k
  · rw [Nat.mod_eq_of_lt h]; omega
  · by_cases h2 : a + 2 = k
    · rw [h2, Nat.mod_self]; omega
    · have h3 : a + 2 = k + 1 := by omega
      rw [h3, Nat.add_mod_left, Nat.mod_eq_of_lt (by omega)]
      omega

theorem mod_steps_ne (k a : Nat) (hk : 3 ≤ k) (ha : a < k) :
    (a + 1) % k ≠ (a + 2) % k := by
  by_cases h : a + 2 < k
  · rw [Nat.mod_eq_of_lt h, Nat.mod_eq_of_lt (by omega)]; omega
  · by_cases h2 : a + 2 = k
    · rw [h2, Nat.mod_self, Nat.mod_eq_of_lt (by omega)]; omega
    · have h3 : a + 2 = k + 1 := by omega
      have h4 : a + 1 = k := by omega
      rw [h3, h4, Nat.mod_self, Nat.add_mod_left, Nat.mod_eq_of_lt (by omega)]
      omega


/-- Claim C7: dealer rotation and seating.  With exactly 2 active
players the new dealer (at rotated index dp of the active list) is
also the small blind and the other player is the big blind; with 3 or
more the small blind sits at dp+1 and the big blind at dp+2 (mod k).
Preflop, with no current player set, _set_next_player starts with the
player after the big blind (heads-up: the dealer/small blind); after
the round advances, _set_first_to_act starts left of the dealer
(heads-up: the non-dealer). -/
theorem C7_seating (gs : GameState)
    (hnd : (gs.players.map (·.player_id)).Nodup) :
    ∀ act, act = gs.players.filter (fun p => p.status == PlayerStatus.active) →
    ∀ k, k = act.length →
    ∀ dp, dp = (gs.dealer_position + 1) % k →
    ((k = 2 →
      (∃ d, findPlayer (rotateDealer gs) (act.getD dp default).player_id = some d ∧
        d.is_dealer = true ∧ d.is_small_blind = true) ∧
      (∃ b, findPlayer (rotateDealer gs)
          (act.getD ((dp + 1) % k) default).player_id = some b ∧
        b.is_big_blind = true)) ∧
     (3 ≤ k →
      (∃ d, findPlayer (rotateDealer gs) (act.getD dp default).player_id = some d ∧
        d.is_dealer = true) ∧
      (∃ sb, findPlayer (rotateDealer gs)
          (act.getD ((dp + 1) % k) default).player_id = some sb ∧
        sb.is_small_blind = true) ∧
      (∃ bb, findPlayer (rotateDealer gs)
          (act.getD ((dp + 2) % k) default).player_id = some bb ∧
        bb.is_big_blind = true)) ∧
     (∀ x y, gs.get_players_to_act = [x, y] → gs.current_player_id = none →
      (x.is_big_blind = true →
        (setNextPlayer gs).current_player_id = some y.player_id) ∧
      (x.is_big_blind = false → y.is_big_blind = true →
        (setNextPlayer gs).current_player_id = some x.player_id)) ∧
     (∀ x y, gs.get_players_to_act = [x, y] →
      (setFirstToAct gs).current_player_id =
        some (if gs.dealer_position % 2 = 0 then y.player_id else x.player_id))) := by
  intro act hact k hk dp hdp
  refine ⟨?_, ?_, ?_, ?_⟩
  · intro hk2
    subst hdp
    subst hk
    have hlen : act.length = 2 := hk2
    rw [hlen]
    have hsub : ∀ q ∈ act, q ∈ gs.players := by
      intro q hq; rw [hact] at hq; exact List.mem_of_mem_filter hq
    have hndact : (act.map (·.player_id)).Nodup := by
      rw [hact]
      exact List.Nodup.sublist (List.Sublist.map _ (List.filter_sublist _)) hnd
    have hneempty : act.isEmpty = false := by
      cases act with
      | nil => simp at hlen
      | cons a as => rfl
    have hdp2 : (gs.dealer_position + 1) % 2 < 2 := Nat.mod_lt _ (by omega)
    have hij : (gs.dealer_position + 1) % 2 ≠ ((gs.dealer_position + 1) % 2 + 1) % 2 :=
      fun h => (mod_succ_ne 2 _ (by omega) hdp2) h.symm
    rw [rotateDealer_eq gs act hact hneempty]
    rw [hlen]
    rw [if_pos rfl, if_pos rfl]
    have hid_ne : (act.getD ((gs.dealer_position + 1) % 2) default).player_id ≠
        (act.getD (((gs.dealer_position + 1) % 2 + 1) % 2) default).player_id := by
      apply getD_id_ne act _ _ hndact (by omega) (by omega) hij
    simp only [List.getD_eq_getElem?_getD, Nat.add_mod_mod, Nat.mod_add_mod] at hid_ne
    constructor
    · rw [findPlayer_update _ _ (fun p => { p with is_big_blind := true }) _ (fun p => rfl)]
      rw [findPlayer_update _ _ (fun p => { p with is_small_blind := true }) _ (fun p => rfl)]
      rw [findPlayer_update _ _ (fun p => { p with is_dealer := true }) _ (fun p => rfl)]
      have hbase : findPlayer gs
          (act.getD ((gs.dealer_position + 1) % 2) default).player_id =
          some (act.getD ((gs.dealer_position + 1) % 2) default) :=
        find?_of_mem_nodup gs.players _ hnd (hsub _ (getD_mem_of_lt act _ (by omega)))
      rw [show findPlayer { gs with dealer_position := (gs.dealer_position + 1) % 2 }
          (act.getD ((gs.dealer_position + 1) % 2) default).player_id =
          findPlayer gs (act.getD ((gs.dealer_position + 1) % 2) default).player_id
        from rfl]
      rw [hbase]
      simp [hid_ne]
    · rw [findPlayer_update _ _ (fun p => { p with is_big_blind := true }) _ (fun p => rfl)]
      rw [findPlayer_update _ _ (fun p => { p with is_small_blind := true }) _ (fun p => rfl)]
      rw [findPlayer_update _ _ (fun p => { p with is_dealer := true }) _ (fun p => rfl)]
      have hbase : findPlayer gs
          (act.getD (((gs.dealer_position + 1) % 2 + 1) % 2) default).player_id =
          some (act.getD (((gs.dealer_position + 1) % 2 + 1) % 2) default) :=
        find?_of_mem_nodup gs.players _ hnd (hsub _ (getD_mem_of_lt act _ (by omega)))
      rw [show findPlayer { gs with dealer_position := (gs.dealer_position + 1) % 2 }
          (act.getD (((gs.dealer_position + 1) % 2 + 1) % 2) default).player_id =
          findPlayer gs (act.getD (((gs.dealer_position + 1) % 2 + 1) % 2) default).player_id
        from rfl]
      rw [hbase]
      simp [Ne.symm hid_ne]
  · intro hk3
    subst hdp
    subst hk
    have hsub : ∀ q ∈ act, q ∈ gs.players := by
      intro q hq; rw [hact] at hq; exact List.mem_of_mem_filter hq
    have hndact : (act.map (·.player_id)).Nodup := by
      rw [hact]
      exact List.Nodup.sublist (List.Sublist.map _ (List.filter_sublist _)) hnd
    have hneempty : act.isEmpty = false := by
      cases act with
      | nil => simp at hk3
      | cons a as => rfl
    have hlpos : 0 < act.length := by omega
    have hdplt : (gs.dealer_position + 1) % act.length < act.length :=
      Nat.mod_lt _ hlpos
    have hi1lt : ((gs.dealer_position + 1) % act.length + 1) % act.length < act.length :=
      Nat.mod_lt _ hlpos
    have hi2lt : ((gs.dealer_position + 1) % act.length + 2) % act.length < act.length :=
      Nat.mod_lt _ hlpos
    have hij01 : (gs.dealer_position + 1) % act.length ≠
        ((gs.dealer_position + 1) % act.length + 1) % act.length :=
      fun h => (mod_succ_ne act.length _ (by omega) hdplt) h.symm
    have hij02 : (gs.dealer_position + 1) % act.length ≠
        ((gs.dealer_position + 1) % act.length + 2) % act.length :=
      fun h => (mod_two_step_ne act.length _ hk3 hdplt) h.symm
    have hij12 : ((gs.dealer_position + 1) % act.length + 1) % act.length ≠
        ((gs.dealer_position + 1) % act.length + 2) % act.length :=
      mod_steps_ne act.length _ hk3 hdplt
    have hne01 : (act.getD ((gs.dealer_position + 1) % act.length) default).player_id ≠
        (act.getD (((gs.dealer_position + 1) % act.length + 1) % act.length) default).player_id :=
      getD_id_ne act _ _ hndact hdplt hi1lt hij01
    have hne02 : (act.getD ((gs.dealer_position + 1) % act.length) default).player_id ≠
        (act.getD (((gs.dealer_position + 1) % act.length + 2) % act.length) default).player_id :=
      getD_id_ne act _ _ hndact hdplt hi2lt hij02
    have hne12 : (act.getD (((gs.dealer_position + 1) % act.length + 1) % act.length) default).player_id ≠
        (act.getD (((gs.dealer_position + 1) % act.length + 2) % act.length) default).player_id :=
      getD_id_ne act _ _ hndact hi1lt hi2lt hij12
    simp only [List.getD_eq_getElem?_getD, Nat.add_mod_mod, Nat.mod_add_mod]
      at hne01 hne02 hne12
    rw [rotateDealer_eq gs act hact hneempty]
    rw [if_neg (by omega : ¬ act.length = 2), if_neg (by omega : ¬ act.length = 2)]
    refine ⟨?_, ?_, ?_⟩
    · rw [findPlayer_update _ _ (fun p => { p with is_big_blind := true }) _ (fun p => rfl)]
      rw [findPlayer_update _ _ (fun p => { p with is_small_blind := true }) _ (fun p => rfl)]
      rw [findPlayer_update _ _ (fun p => { p with is_dealer := true }) _ (fun p => rfl)]
      have hbase : findPlayer gs
          (act.getD ((gs.dealer_position + 1) % act.length) default).player_id =
          some (act.getD ((gs.dealer_position + 1) % act.length) default) :=
        find?_of_mem_nodup gs.players _ hnd (hsub _ (getD_mem_of_lt act _ hdplt))
      rw [show findPlayer
          { gs with dealer_position := (gs.dealer_position + 1) % act.length }
          (act.getD ((gs.dealer_position + 1) % act.length) default).player_id =
          findPlayer gs (act.getD ((gs.dealer_position + 1) % act.length) default).player_id
        from rfl]
      rw [hbase]
      simp [hne01, hne02]
    · rw [findPlayer_update _ _ (fun p => { p with is_big_blind := true }) _ (fun p => rfl)]
      rw [findPlayer_update _ _ (fun p => { p with is_small_blind := true }) _ (fun p => rfl)]
      rw [findPlayer_update _ _ (fun p => { p with is_dealer := true }) _ (fun p => rfl)]
      have hbase : findPlayer gs
          (act.getD (((gs.dealer_position + 1) % act.length + 1) % act.length) default).player_id =
          some (act.getD (((gs.dealer_position + 1) % act.length + 1) % act.length) default) :=
        find?_of_mem_nodup gs.players _ hnd (hsub _ (getD_mem_of_lt act _ hi1lt))
      rw [show findPlayer
          { gs with dealer_position := (gs.dealer_position + 1) % act.length }
          (act.getD (((gs.dealer_position + 1) % act.length + 1) % act.length) default).player_id =
          findPlayer gs (act.getD (((gs.dealer_position + 1) % act.length + 1) % act.length) default).player_id
        from rfl]
      rw [hbase]
      simp [Ne.symm hne01, hne12]
    · rw [findPlayer_update _ _ (fun p => { p with is_big_blind := true }) _ (fun p => rfl)]
      rw [findPlayer_update _ _ (fun p => { p with is_small_blind := true }) _ (fun p => rfl)]
      rw [findPlayer_update _ _ (fun p => { p with is_dealer := true }) _ (fun p => rfl)]
      have hbase : findPlayer gs
          (act.getD (((gs.dealer_position + 1) % act.length + 2) % act.length) default).player_id =
          some (act.getD (((gs.dealer_position + 1) % act.length + 2) % act.length) default) :=
        find?_of_mem_nodup gs.players _ hnd (hsub _ (getD_mem_of_lt act _ hi2lt))
      rw [show findPlayer
          { gs with dealer_position := (gs.dealer_position + 1) % act.length }
          (act.getD (((gs.dealer_position + 1) % act.length + 2) % act.length) default).player_id =
          findPlayer gs (act.getD (((gs.dealer_position + 1) % act.length + 2) % act.length) default).player_id
        from rfl]
      rw [hbase]
      simp [Ne.symm hne02, Ne.symm hne12]
  · intro x y hxy hcpi
    constructor
    · intro hx
      simp [setNextPlayer, hxy, hcpi, hx, List.findIdx?_cons]
    · intro hx hy
      simp [setNextPlayer, hxy, hcpi, hx, hy, List.findIdx?_cons]
  · intro x y hxy
    rcases Nat.mod_two_eq_zero_or_one gs.dealer_position with h | h <;>
      simp [setFirstToAct, hxy, h]

/-- Witness for C7: the seating theorem applied to a fresh heads-up
table (dealer/small blind B is first to act preflop), a three-handed
table (small blind one seat and big blind two seats past the dealer),
and a post-blinds heads-up state in which the non-dealer acts first
after the flop; with the concrete flag assignments checked by
evaluation. -/
theorem C7_witness :
    ((gsW7.players.map (·.player_id)).Nodup ∧
     (gsW7r.players.map (·.player_id)).Nodup ∧
     (gsW7n.players.map (·.player_id)).Nodup) ∧
    ((∃ d, findPlayer (rotateDealer gsW7)
        ((gsW7.players.filter (fun p => p.status == PlayerStatus.active)).getD ((gsW7.dealer_position + 1) % (gsW7.players.filter (fun p => p.status == PlayerStatus.active)).length) default).player_id = some d ∧
        d.is_dealer = true ∧ d.is_small_blind = true) ∧
      (∃ b, findPlayer (rotateDealer gsW7)
        ((gsW7.players.filter (fun p => p.status == PlayerStatus.active)).getD ((((gsW7.dealer_position + 1) % (gsW7.players.filter (fun p => p.status == PlayerStatus.active)).length) + 1) % (gsW7.players.filter (fun p => p.status == PlayerStatus.active)).length) default).player_id = some b ∧
        b.is_big_blind = true)) ∧
    ((∃ d, findPlayer (rotateDealer gsW7r)
        ((gsW7r.players.filter (fun p => p.status == PlayerStatus.active)).getD ((gsW7r.dealer_position + 1) % (gsW7r.players.filter (fun p => p.status == PlayerStatus.active)).length) default).player_id = some d ∧
        d.is_dealer = true) ∧
      (∃ sb, findPlayer (rotateDealer gsW7r)
        ((gsW7r.players.filter (fun p => p.status == PlayerStatus.active)).getD ((((gsW7r.dealer_position + 1) % (gsW7r.players.filter (fun p => p.status == PlayerStatus.active)).length) + 1) % (gsW7r.players.filter (fun p => p.status == PlayerStatus.active)).length) default).player_id = some sb ∧
        sb.is_small_blind = true) ∧
      (∃ bb, findPlayer (rotateDealer gsW7r)
        ((gsW7r.players.filter (fun p => p.status == PlayerStatus.active)).getD ((((gsW7r.dealer_position + 1) % (gsW7r.players.filter (fun p => p.status == PlayerStatus.active)).length) + 2) % (gsW7r.players.filter (fun p => p.status == PlayerStatus.active)).length) default).player_id = some bb ∧
        bb.is_big_blind = true)) ∧
    (setNextPlayer gsW7n).current_player_id = some pW7B.player_id ∧
    (setFirstToAct gsW7n).current_player_id =
      some (if gsW7n.dealer_position % 2 = 0 then pW7B.player_id
            else pW7A.player_id) ∧
    ((rotateDealer gsW7).players.map (fun p =>
      (p.player_id, p.is_dealer, p.is_small_blind, p.is_big_blind)) =
      [("A", false, false, true), ("B", true, true, false)] ∧
     (rotateDealer gsW7r).players.map (fun p =>
      (p.player_id, p.is_dealer, p.is_small_blind, p.is_big_blind)) =
      [("P", false, false, true), ("Q", true, false, false),
       ("R", false, true, false)] ∧
     (setNextPlayer gsW7n).current_player_id = some "B" ∧
     (setFirstToAct gsW7n).current_player_id = some "A" ∧
     (startHand gsW7 deckW7).map (fun st => st.1.current_player_id) =
       some (some "B") ∧
     (startHand gsW7 deckW7).map
       (fun st => (setFirstToAct st.1).current_player_id) =
       some (some "A")) :=
  ⟨⟨by decide, by decide, by decide⟩,
   (C7_seating gsW7 (by decide) _ rfl _ rfl _ rfl).1 (by decide),
   (C7_seating gsW7r (by decide) _ rfl _ rfl _ rfl).2.1 (by decide),
   ((C7_seating gsW7n (by decide) _ rfl _ rfl _ rfl).2.2.1 pW7A pW7B
     (by decide) (by decide)).1 (by decide),
   (C7_seating gsW7n (by decide) _ rfl _ rfl _ rfl).2.2.2 pW7A pW7B (by decide),
   by decide, by decide, by decide, by decide, by decide, by decide⟩
